import Mathlib

/-!
# Verification of the `ovq` query subsystem

Shallow embedding of the query parser (`src/query/parser.rs`) and evaluator
(`src/query/eval.rs`) of the `ovq` repository, together with proofs of the
frozen claims about them.

Modelling conventions:
* Rust `String`/`&str` values are modelled as `List Char`; positions into the
  input are byte offsets, with UTF-8 byte widths accounted for explicitly
  (the source indexes `&str` by byte offset, which panics on a non-boundary).
* `f64` is modelled exactly by `F64`, scaled decimal integers `m / 10 ^ e`.
  Every IEEE-754 double is an exact finite decimal, so this is a faithful
  superset of the double values; the arithmetic the source performs on them
  (subtraction, absolute value, order comparisons, comparison against
  `f64::EPSILON = 2 ^ (-52)`) is exact rational arithmetic on such values.
* `serde_yaml::Value` is modelled by `Yaml`.
* Rust's Unicode `char::to_lowercase` is modelled on the ASCII range
  (the only range the claims exercise); `char::is_alphanumeric` and
  `char::is_whitespace` are modelled exactly on ASCII plus the documented
  Latin/whitespace ranges used by the concrete inputs in this file.
-/

namespace Ovq

/-- Comparison operators, from `src/query/ast.rs` (`CompareOp`). -/
inductive CompareOp
  | Eq
  | Ne
  | Gt
  | Lt
  | Ge
  | Le
deriving DecidableEq, Repr

/-- Dates from `src/query/ast.rs` (`Date`): `year: i32`, `month: u8`, `day: u8`.
The integer types are modelled as `Int`/`Nat`; the bounded-parse functions
below enforce the `i32`/`u8` ranges where the source relies on them. -/
structure Date where
  year : Int
  month : Nat
  day : Nat
deriving DecidableEq, Repr

/-- Exact model of an `f64` as a scaled decimal `m / 10 ^ e`.  Every double is
exactly such a number (dyadic rationals are finite decimals). -/
structure F64 where
  m : Int
  e : Nat
deriving DecidableEq, Repr

/-- Rational value of an `F64`. -/
def F64.toRat (x : F64) : ℚ := (x.m : ℚ) / 10 ^ x.e

/-- Query literal values, from `src/query/ast.rs` (`Value`). -/
inductive Value
  | string (s : List Char)
  | number (x : F64)
  | bool (b : Bool)
  | date (d : Date)
deriving DecidableEq, Repr

/-- Query expressions, from `src/query/ast.rs` (`Expr`). -/
inductive Expr
  | compare (field : List Char) (op : CompareOp) (value : Value)
  | containsE (field : List Char) (value : Value)
  | and (l r : Expr)
  | or (l r : Expr)
deriving DecidableEq, Repr

/-- Model of `serde_yaml::Value` (document metadata).  Floating-point
document values may be non-finite: the YAML scalars `.nan`, `.inf` and
`-.inf` parse to `Number(Float(...))` holding `NaN` and the two infinities,
so these get their own constructors (`nan`, `inf`) next to the finite
`number`. -/
inductive Yaml
  | null
  | bool (b : Bool)
  | number (x : F64)
  | nan
  | inf (neg : Bool)
  | string (s : List Char)
  | sequence (l : List Yaml)
  | mapping (l : List (Yaml × Yaml))
  | tagged (tag : List Char) (v : Yaml)

/-- An `f64` as `serde_yaml::Value::as_f64` delivers it: a finite double,
`NaN`, or an infinity (`serde_yaml` parses `.nan` / `.inf` / `-.inf` to
exactly these). -/
inductive RF64
  | fin (x : F64)
  | nan
  | inf (neg : Bool)
deriving DecidableEq, Repr

/-- ASCII lowercasing of one character (model of the ASCII fragment of Rust's
`char::to_lowercase`, which is what `str::to_lowercase` applies). -/
def asciiLower (c : Char) : Char :=
  if 'A' ≤ c ∧ c ≤ 'Z' then Char.ofNat (c.toNat + 32) else c

/-- Model of `str::to_lowercase` (ASCII fragment). -/
def lowerL (s : List Char) : List Char := s.map asciiLower

/-- `listStarts p l`: does `l` start with `p`?  (Model of `str::starts_with`.) -/
def listStarts : List Char → List Char → Bool
  | [], _ => true
  | _ :: _, [] => false
  | p :: ps, c :: cs => p == c && listStarts ps cs

/-- `strip_obsidian_link` from `src/query/eval.rs`: strip a leading `[[` and a
trailing `]]` when both are present, otherwise return the input unchanged
(`strip_prefix` then `strip_suffix`, `unwrap_or` the original). -/
def stripObsidianLink (s : List Char) : List Char :=
  if listStarts (['[', '[']) s then
    let t := s.drop 2
    if listStarts ([']', ']']) t.reverse then (t.reverse.drop 2).reverse
    else s
  else s

/-- `normalize_for_compare` from `src/query/eval.rs`: link-strip, then
lowercase. -/
def normalizeForCompare (s : List Char) : List Char :=
  lowerL (stripObsidianLink s)

/-- Decimal digit character for `d < 10`. -/
def digitChar (d : Nat) : Char := Char.ofNat (48 + d)

/-- Digit-accumulating loop for `natDigits`; `fuel ≥ n` always suffices. -/
def natDigitsGo : Nat → Nat → List Char → List Char
  | 0, n, acc => digitChar n :: acc
  | fuel + 1, n, acc =>
    if n < 10 then digitChar n :: acc
    else natDigitsGo fuel (n / 10) (digitChar (n % 10) :: acc)

/-- Decimal digit string of a natural number (model of integer `Display`). -/
def natDigits (n : Nat) : List Char := natDigitsGo n n []

/-- Drop trailing decimal zeros from a scaled decimal (used when rendering a
float the way Rust's `Display` does). -/
def stripZeros : Int → Nat → F64
  | m, 0 => ⟨m, 0⟩
  | m, e + 1 => if m % 10 = 0 then stripZeros (m / 10) e else ⟨m, e + 1⟩

/-- Left-pad a digit string with zeros to width `k`. -/
def padLeftZeros (k : Nat) (ds : List Char) : List Char :=
  List.replicate (k - ds.length) '0' ++ ds

/-- Model of `serde_yaml::Number`'s `Display` (as used by `n.to_string()` in
`yaml_to_string`): plain decimal rendering, no exponent, shortest fraction. -/
def numberToString (x : F64) : List Char :=
  let y := stripZeros x.m x.e
  let sgn : List Char := if y.m < 0 then ['-'] else []
  let n := y.m.natAbs
  if y.e = 0 then sgn ++ natDigits n
  else sgn ++ natDigits (n / 10 ^ y.e) ++ '.' :: padLeftZeros y.e (natDigits (n % 10 ^ y.e))

/-- `yaml_to_string` from `src/query/eval.rs`: strings, numbers and booleans
render to text; everything else is `None`. -/
def yamlToString : Yaml → Option (List Char)
  | .string s => some s
  | .number x => some (numberToString x)
  | .nan => some ('.' :: 'n' :: 'a' :: 'n' :: [])
  | .inf neg =>
    some (if neg then '-' :: '.' :: 'i' :: 'n' :: 'f' :: []
          else '.' :: 'i' :: 'n' :: 'f' :: [])
  | .bool b => some (if b then ('t' :: 'r' :: 'u' :: 'e' :: []) else ('f' :: 'a' :: 'l' :: 's' :: 'e' :: []))
  | _ => none

/-- `yaml_to_number` from `src/query/eval.rs`: `as_f64` succeeds exactly on
native numbers (`serde_yaml` never coerces strings or booleans), including
the non-finite floats that `.nan`, `.inf` and `-.inf` produce. -/
def yamlToNumber : Yaml → Option RF64
  | .number x => some (.fin x)
  | .nan => some .nan
  | .inf b => some (.inf b)
  | _ => none

/-- Model of `serde_yaml::Value::as_bool`. -/
def yamlAsBool : Yaml → Option Bool
  | .bool b => some b
  | _ => none

/-- Model of `serde_yaml::Value::as_str`. -/
def yamlAsStr : Yaml → Option (List Char)
  | .string s => some s
  | _ => none

/-- Model of `serde_yaml::Value::as_sequence`. -/
def yamlAsSequence : Yaml → Option (List Yaml)
  | .sequence l => some l
  | _ => none

/-- Model of Rust `str::split(sep)` on a single-char separator: keeps empty
pieces, `""` splits to `[""]`. -/
def splitOnChar (sep : Char) : List Char → List (List Char)
  | [] => [[]]
  | c :: cs =>
    let r := splitOnChar sep cs
    if c = sep then [] :: r
    else
      match r with
      | [] => [[c]]
      | h :: t => (c :: h) :: t

/-- Is `c` an ASCII decimal digit? -/
def isDigitChar (c : Char) : Bool := decide (48 ≤ c.toNat ∧ c.toNat ≤ 57)

/-- Numeric value of an ASCII digit character. -/
def digitVal (c : Char) : Nat := c.toNat - 48

/-- Value of a nonempty all-digit string, `none` otherwise. -/
def digitsVal? (l : List Char) : Option Nat :=
  if l ≠ [] ∧ l.all isDigitChar then
    some (l.foldl (fun a c => a * 10 + digitVal c) 0)
  else none

/-- Model of Rust `str::parse::<i32>`: optional sign, digits, value must fit
in `i32`. -/
def parseI32 (l : List Char) : Option Int :=
  if l.head? = some '+' then
    (digitsVal? l.tail).bind fun v =>
      if v ≤ 2147483647 then some (v : Int) else none
  else if l.head? = some '-' then
    (digitsVal? l.tail).bind fun v =>
      if v ≤ 2147483648 then some (-(v : Int)) else none
  else
    (digitsVal? l).bind fun v =>
      if v ≤ 2147483647 then some (v : Int) else none

/-- Model of Rust `str::parse::<u8>`: optional `+`, digits, value ≤ 255. -/
def parseU8 (l : List Char) : Option Nat :=
  if l.head? = some '+' then
    (digitsVal? l.tail).bind fun v => if v ≤ 255 then some v else none
  else
    (digitsVal? l).bind fun v => if v ≤ 255 then some v else none

/-- `yaml_to_date` from `src/query/eval.rs`: the document value must be a
string splitting on `-` into exactly three parts that parse as
`i32`/`u8`/`u8`; note there is no month/day range check here. -/
def yamlToDate (v : Yaml) : Option Date :=
  match yamlAsStr v with
  | none => none
  | some s =>
    match splitOnChar '-' s with
    | [p0, p1, p2] =>
      (parseI32 p0).bind fun y =>
      (parseU8 p1).bind fun mo =>
      (parseU8 p2).bind fun d =>
      some ⟨y, mo, d⟩
    | _ => none

/-- Three-way comparison on `Int`. -/
def intCmp (a b : Int) : Ordering :=
  if a < b then .lt else if b < a then .gt else .eq

/-- Three-way comparison on `Nat`. -/
def natCmp (a b : Nat) : Ordering :=
  if a < b then .lt else if b < a then .gt else .eq

/-- Three-way comparison on `Char` (code-point order; equals Rust's byte-wise
`&str` order because UTF-8 preserves code-point order). -/
def charCmp (a b : Char) : Ordering :=
  if a < b then .lt else if b < a then .gt else .eq

/-- Lexicographic comparison on strings (Rust `String`'s `Ord`). -/
def strCmp : List Char → List Char → Ordering
  | [], [] => .eq
  | [], _ :: _ => .lt
  | _ :: _, [] => .gt
  | a :: l1, b :: l2 =>
    match charCmp a b with
    | .eq => strCmp l1 l2
    | o => o

/-- Derived lexicographic `Ord` on `Date` (year, then month, then day), from
`#[derive(Ord)]` in `src/query/ast.rs`. -/
def dateCmp (d1 d2 : Date) : Ordering :=
  match intCmp d1.year d2.year with
  | .eq =>
    match natCmp d1.month d2.month with
    | .eq => natCmp d1.day d2.day
    | o => o
  | o => o

/-- `compare_ord` from `src/query/eval.rs`, generic over a three-way
comparison (Rust is generic over `T: Ord`). -/
def compareOrdWith (cmp : α → α → Ordering) (a b : α) (op : CompareOp) : Option Bool :=
  some (match op, cmp a b with
    | .Eq, .eq => true
    | .Eq, _ => false
    | .Ne, .eq => false
    | .Ne, _ => true
    | .Gt, .gt => true
    | .Gt, _ => false
    | .Lt, .lt => true
    | .Lt, _ => false
    | .Ge, .lt => false
    | .Ge, _ => true
    | .Le, .gt => false
    | .Le, _ => true)

/-- `compare_str` from `src/query/eval.rs`: normalize both sides, then
compare lexicographically. -/
def compareStr (a b : List Char) (op : CompareOp) : Option Bool :=
  compareOrdWith strCmp (normalizeForCompare a) (normalizeForCompare b) op

/-- Strict `<` on `F64` values (exact, by cross-multiplication). -/
def f64Lt (a b : F64) : Bool := decide (a.m * 10 ^ b.e < b.m * 10 ^ a.e)

/-- `≤` on `F64` values (exact). -/
def f64Le (a b : F64) : Bool := decide (a.m * 10 ^ b.e ≤ b.m * 10 ^ a.e)

/-- Exact difference of two `F64` values. -/
def f64Sub (a b : F64) : F64 := ⟨a.m * 10 ^ b.e - b.m * 10 ^ a.e, a.e + b.e⟩

/-- Absolute value of an `F64`. -/
def f64Abs (a : F64) : F64 := ⟨|a.m|, a.e⟩

/-- `f64::EPSILON = 2 ^ (-52)`, exactly, as the decimal `5 ^ 52 / 10 ^ 52`. -/
def EPSILON : F64 := ⟨5 ^ 52, 52⟩

/-- `compare_float` from `src/query/eval.rs`: `Eq`/`Ne` via the epsilon
tolerance, the order operators directly. -/
def compareFloat (a b : F64) (op : CompareOp) : Option Bool :=
  some (match op with
    | .Eq => f64Lt (f64Abs (f64Sub a b)) EPSILON
    | .Ne => !f64Lt (f64Abs (f64Sub a b)) EPSILON
    | .Gt => f64Lt b a
    | .Lt => f64Lt a b
    | .Ge => f64Le b a
    | .Le => f64Le a b)

/-- `compare_float` applied to a document value that may be non-finite (the
query literal, coming from the parser, is always finite).  Every IEEE
comparison involving `NaN` is false, and `|NaN - b|` is `NaN`, which is
neither `< EPSILON` nor `≥ EPSILON`, so on a `NaN` document value every
operator — `Eq` and `Ne` alike — yields `false`.  For `±∞` against a finite
`b`, `|a - b| = ∞ ≥ EPSILON` and the order comparisons follow the sign of
the infinity. -/
def compareFloatR : RF64 → F64 → CompareOp → Option Bool
  | .fin a, b, op => compareFloat a b op
  | .nan, _, _ => some false
  | .inf neg, _, op =>
    some (match op with
      | .Eq => false
      | .Ne => true
      | .Gt => !neg
      | .Lt => neg
      | .Ge => !neg
      | .Le => neg)

/-- Iteration of `get_field_case_insensitive` over the mapping's entries. -/
def getFieldGo (fieldLower : List Char) : List (Yaml × Yaml) → Option Yaml
  | [] => none
  | (k, v) :: rest =>
    match k with
    | .string ks =>
      if lowerL ks = fieldLower then some v else getFieldGo fieldLower rest
    | _ => getFieldGo fieldLower rest

/-- `get_field_case_insensitive` from `src/query/eval.rs`: on a mapping,
return the value of the first entry whose string key lowercases to the
lowercased query field; `None` on anything that is not a mapping. -/
def getFieldCaseInsensitive (fm : Yaml) (field : List Char) : Option Yaml :=
  match fm with
  | .mapping l => getFieldGo (lowerL field) l
  | _ => none

/-- `try_eval_compare` from `src/query/eval.rs`. -/
def tryEvalCompare (fm : Yaml) (field : List Char) (op : CompareOp) (value : Value) : Option Bool :=
  (getFieldCaseInsensitive fm field).bind fun fmValue =>
    match value with
    | .string s => (yamlToString fmValue).bind fun fmStr => compareStr fmStr s op
    | .number n => (yamlToNumber fmValue).bind fun fmNum => compareFloatR fmNum n op
    | .bool b =>
      (yamlAsBool fmValue).bind fun fmBool =>
        match op with
        | .Eq => some (fmBool == b)
        | .Ne => some (fmBool != b)
        | _ => none
    | .date d => (yamlToDate fmValue).bind fun fmDate => compareOrdWith dateCmp fmDate d op

/-- `eval_compare` from `src/query/eval.rs`: `try_eval_compare` with any
internal failure resolved to `false`. -/
def evalCompare (fm : Yaml) (field : List Char) (op : CompareOp) (value : Value) : Bool :=
  (tryEvalCompare fm field op value).getD false

/-- `contains` on strings (model of Rust `str::contains` with a string
needle): the needle occurs as a contiguous substring. -/
def containsSub : List Char → List Char → Bool
  | [], needle => listStarts needle []
  | c :: rest, needle => listStarts needle (c :: rest) || containsSub rest needle

/-- `eval_contains` from `src/query/eval.rs`. -/
def evalContains (fm : Yaml) (field : List Char) (value : Value) : Bool :=
  match getFieldCaseInsensitive fm field with
  | none => false
  | some fmValue =>
    match value with
    | .string needle =>
      let needleN := normalizeForCompare needle
      match yamlAsSequence fmValue with
      | some arr =>
        arr.any fun item =>
          ((yamlToString item).map fun s => decide (normalizeForCompare s = needleN)).getD false
      | none =>
        match yamlToString fmValue with
        | some s => containsSub (normalizeForCompare s) needleN
        | none => false
    | _ => false

/-- `evaluate` from `src/query/eval.rs`. -/
def evaluate : Expr → Yaml → Bool
  | .compare f op v, fm => evalCompare fm f op v
  | .containsE f v, fm => evalContains fm f v
  | .and l r, fm => evaluate l fm && evaluate r fm
  | .or l r, fm => evaluate l fm || evaluate r fm

/-! ## Parser embedding (`src/query/parser.rs`)

The source stores `input: &str` and a byte offset `pos: usize`, and indexes
the string by byte offset (`&self.input[self.pos..]`, `remaining[..kw.len()]`),
which panics whenever the offset is not a UTF-8 character boundary.  The model
keeps the input as a `List Char`, keeps `pos` in bytes, and makes every such
slicing operation explicit: `none`/`.panic` marks exactly the states where the
Rust code panics. -/

/-- UTF-8 byte width of one character. -/
def utf8Width (c : Char) : Nat :=
  if c.toNat < 128 then 1
  else if c.toNat < 2048 then 2
  else if c.toNat < 65536 then 3
  else 4

/-- UTF-8 byte length of a string. -/
def byteLen (l : List Char) : Nat := (l.map utf8Width).sum

/-- The suffix of `l` starting at byte offset `pos`; `none` when `pos` is not
on a character boundary or runs past the end — exactly where Rust's
`&input[pos..]` panics. -/
def charsFrom : List Char → Nat → Option (List Char)
  | l, 0 => some l
  | [], _ + 1 => none
  | c :: cs, pos + 1 =>
    if pos + 1 < utf8Width c then none
    else charsFrom cs (pos + 1 - utf8Width c)

/-- The first `k` bytes of `l` as characters; `none` when byte offset `k`
is not a character boundary — exactly where Rust's `s[..k]` panics. -/
def takeBytes : List Char → Nat → Option (List Char)
  | _, 0 => some []
  | [], _ + 1 => none
  | c :: cs, k + 1 =>
    if utf8Width c ≤ k + 1 then (takeBytes cs (k + 1 - utf8Width c)).map (c :: ·)
    else none

/-- Model of Rust `char::is_whitespace` (the Unicode `White_Space` set). -/
def rustIsWhitespace (c : Char) : Bool :=
  let v := c.toNat
  decide ((9 ≤ v ∧ v ≤ 13) ∨ v = 32 ∨ v = 133 ∨ v = 160 ∨ v = 5760 ∨
    (8192 ≤ v ∧ v ≤ 8202) ∨ v = 8232 ∨ v = 8233 ∨ v = 8239 ∨ v = 8287 ∨ v = 12288)

/-- Model of Rust `char::is_alphanumeric`: exact on ASCII and on the Latin-1
Supplement / Latin Extended-A/B letter ranges (the only non-ASCII characters
used by the concrete inputs in this file; `×` at 215 and `÷` at 247 are the
two non-letters in that range). -/
def rustIsAlphanumeric (c : Char) : Bool :=
  let v := c.toNat
  decide ((48 ≤ v ∧ v ≤ 57) ∨ (65 ≤ v ∧ v ≤ 90) ∨ (97 ≤ v ∧ v ≤ 122) ∨
    (192 ≤ v ∧ v ≤ 591 ∧ v ≠ 215 ∧ v ≠ 247))

/-- `ParseError` from `src/query/parser.rs`: message and byte offset. -/
structure ParseError where
  message : List Char
  pos : Nat
deriving DecidableEq, Repr

/-- Outcome of a parsing step.  `.panic` marks the states where the Rust code
panics (byte-slicing off a character boundary); `.fuel` is a model artifact
that never occurs at the fuel budget `parse` supplies. -/
inductive POut (α : Type)
  | panic : POut α
  | fuel : POut α
  | err : ParseError → POut α
  | ok : α → Nat → POut α
deriving DecidableEq, Repr

/-- Sequencing of parser outcomes (Rust's `?` operator). -/
def POut.bind : POut α → (α → Nat → POut β) → POut β
  | .panic, _ => .panic
  | .fuel, _ => .fuel
  | .err e, _ => .err e
  | .ok a p, f => f a p

/-- The successfully parsed value of an outcome, position forgotten. -/
def POut.okVal : POut α → Option α
  | .ok a _ => some a
  | _ => none

/-- The error message of a failed outcome. -/
def POut.errMsg : POut α → Option (List Char)
  | .err e => some e.message
  | _ => none

/-- Sequencing of a possibly-panicking primitive into a parser outcome. -/
def withBoundary : Option α → (α → POut β) → POut β
  | none, _ => .panic
  | some a, f => f a

/-- `current_char` from `src/query/parser.rs`:
`self.input[self.pos..].chars().next().unwrap_or('\0')`; `none` where the
slicing panics. -/
def currentChar (input : List Char) (pos : Nat) : Option Char :=
  (charsFrom input pos).map fun r => r.headD (Char.ofNat 0)

/-- The `skip_whitespace` loop, on the suffix at the current position:
returns the number of bytes consumed.  The source advances `pos` by one byte
per whitespace character, so a multi-byte whitespace character puts `pos`
inside a character and the next `current_char` call panics (`none`). -/
def skipWsL : List Char → Option Nat
  | [] => some 0
  | c :: rest =>
    if rustIsWhitespace c then
      if utf8Width c = 1 then (skipWsL rest).map (· + 1) else none
    else some 0

/-- `skip_whitespace` at byte position `pos` (`none` = panic). -/
def skipWsAt (input : List Char) (pos : Nat) : Option Nat :=
  if byteLen input ≤ pos then some pos
  else
    match charsFrom input pos with
    | none => none
    | some rem => (skipWsL rem).map (pos + ·)

/-- The identifier character test of `parse_identifier`:
`c.is_alphanumeric() || c == '_' || c == '-'`. -/
def identChar (c : Char) : Bool := rustIsAlphanumeric c || c == '_' || c == '-'

/-- The identifier loop of `parse_identifier` (bytes consumed; `none` =
panic, reached when an identifier character is multi-byte, since `pos` is
advanced by one byte per character). -/
def identGoL : List Char → Option Nat
  | [] => some 0
  | c :: rest =>
    if identChar c then
      if utf8Width c = 1 then (identGoL rest).map (· + 1) else none
    else some 0

/-- The number-token character test of `parse_number_or_date`:
`c.is_ascii_digit() || c == '.' || c == '-'`. -/
def tokChar (c : Char) : Bool := isDigitChar c || c == '.' || c == '-'

/-- The token loop of `parse_number_or_date` (digits, `.`, `-`). -/
def numGoL : List Char → Option Nat
  | [] => some 0
  | c :: rest =>
    if tokChar c then
      if utf8Width c = 1 then (numGoL rest).map (· + 1) else none
    else some 0

/-- The scan loop of `parse_string` (up to a closing `"`). -/
def stringGoL : List Char → Option Nat
  | [] => some 0
  | c :: rest =>
    if c == '"' then some 0
    else if utf8Width c = 1 then (stringGoL rest).map (· + 1) else none

/-- `match_char` from `src/query/parser.rs`: returns whether it matched and
the new position (`none` = panic in `current_char`). -/
def matchChar (input : List Char) (pos : Nat) (c : Char) : Option (Bool × Nat) :=
  if pos < byteLen input then
    match currentChar input pos with
    | none => none
    | some c' => if c' = c then some (true, pos + 1) else some (false, pos)
  else some (false, pos)

/-- `match_str` from `src/query/parser.rs` (`s` is one of the ASCII operator
tokens, for which character-prefix equals byte-prefix). -/
def matchStr (input : List Char) (pos : Nat) (s : List Char) : Option (Bool × Nat) :=
  match charsFrom input pos with
  | none => none
  | some rem =>
    if listStarts s rem then some (true, pos + byteLen s) else some (false, pos)

/-- ASCII-case-insensitive equality of characters (how
`str::eq_ignore_ascii_case` compares bytes; keywords are ASCII). -/
def asciiCaseEqChar (a b : Char) : Bool := asciiLower a == asciiLower b

/-- ASCII-case-insensitive equality of strings. -/
def asciiCaseEqList : List Char → List Char → Bool
  | [], [] => true
  | a :: l1, b :: l2 => asciiCaseEqChar a b && asciiCaseEqList l1 l2
  | _, _ => false

/-- `match_keyword` from `src/query/parser.rs`: length guard in bytes, then
`remaining[..kw.len()]` (a panic site), `eq_ignore_ascii_case`, then the
word-boundary test on `remaining.chars().nth(kw.len())`. -/
def matchKeyword (input : List Char) (pos : Nat) (kw : List Char) : Option (Bool × Nat) :=
  match charsFrom input pos with
  | none => none
  | some rem =>
    if byteLen rem < byteLen kw then some (false, pos)
    else
      match takeBytes rem (byteLen kw) with
      | none => none
      | some pre =>
        if asciiCaseEqList pre kw then
          match (rem.drop (byteLen kw)).head? with
          | none => some (true, pos + byteLen kw)
          | some c =>
            if !rustIsAlphanumeric c && c != '_' then some (true, pos + byteLen kw)
            else some (false, pos)
        else some (false, pos)

/-- `parse_identifier` from `src/query/parser.rs`. -/
def parseIdentifier (input : List Char) (pos : Nat) : POut (List Char) :=
  withBoundary (skipWsAt input pos) fun p1 =>
  withBoundary (charsFrom input p1) fun rem =>
  withBoundary (identGoL rem) fun k =>
  if k = 0 then .err ⟨("Expected identifier").toList, p1⟩
  else .ok (rem.take k) (p1 + k)

/-- `parse_operator` from `src/query/parser.rs` (longest match first). -/
def parseOperator (input : List Char) (pos : Nat) : POut CompareOp :=
  withBoundary (skipWsAt input pos) fun p =>
  withBoundary (matchStr input p ((">=").toList)) fun m1 =>
  if m1.1 then .ok .Ge m1.2 else
  withBoundary (matchStr input p (("<=").toList)) fun m2 =>
  if m2.1 then .ok .Le m2.2 else
  withBoundary (matchStr input p (("!=").toList)) fun m3 =>
  if m3.1 then .ok .Ne m3.2 else
  withBoundary (matchChar input p '=') fun m4 =>
  if m4.1 then .ok .Eq m4.2 else
  withBoundary (matchChar input p '>') fun m5 =>
  if m5.1 then .ok .Gt m5.2 else
  withBoundary (matchChar input p '<') fun m6 =>
  if m6.1 then .ok .Lt m6.2 else
  .err ⟨("Expected operator (=, !=, >, <, >=, <=)").toList, p⟩

/-- `parse_string` from `src/query/parser.rs` (called after the opening `"`
has been consumed; no escape sequences). -/
def parseStringLit (input : List Char) (pos : Nat) : POut Value :=
  withBoundary (charsFrom input pos) fun rem =>
  withBoundary (stringGoL rem) fun k =>
  withBoundary (matchChar input (pos + k) '"') fun m =>
  if m.1 then .ok (.string (rem.take k)) m.2
  else .err ⟨("Unterminated string").toList, m.2⟩

/-- `try_parse_date` from `src/query/parser.rs`: three `-`-separated fields
parsed as `i32`/`u8`/`u8` with month ∈ [1,12] and day ∈ [1,31]. -/
def tryParseDate (text : List Char) : Option Date :=
  match splitOnChar '-' text with
  | [p0, p1, p2] =>
    (parseI32 p0).bind fun y =>
    (parseU8 p1).bind fun mo =>
    (parseU8 p2).bind fun d =>
    if (1 ≤ mo ∧ mo ≤ 12) ∧ (1 ≤ d ∧ d ≤ 31) then some ⟨y, mo, d⟩ else none
  | _ => none

/-- Model of Rust `str::parse::<f64>` on tokens over the characters the
number loop accepts (digits, `.`, `-`): an optional leading `-`, then either
`digits+` or `digits+ . digits*` or `. digits+`.  The value is kept exact
(see `F64`). -/
def parseSimpleFloat (text : List Char) : Option F64 :=
  let neg : Bool := decide (text.head? = some '-')
  let rest := if neg then text.tail else text
  if rest.contains '-' then none
  else
    match splitOnChar '.' rest with
    | [ip] =>
      (digitsVal? ip).map fun v => ⟨if neg then -(v : Int) else (v : Int), 0⟩
    | [ip, fp] =>
      if ip.all isDigitChar && fp.all isDigitChar && (!ip.isEmpty || !fp.isEmpty) then
        let ipv := ip.foldl (fun a c => a * 10 + digitVal c) 0
        let fpv := fp.foldl (fun a c => a * 10 + digitVal c) 0
        let mAbs : Int := ipv * 10 ^ fp.length + fpv
        some ⟨if neg then -mAbs else mAbs, fp.length⟩
      else none
    | _ => none

/-- `parse_number_or_date` from `src/query/parser.rs`. -/
def parseNumberOrDate (input : List Char) (pos : Nat) : POut Value :=
  withBoundary (matchChar input pos '-') fun m =>
  withBoundary (charsFrom input m.2) fun rem =>
  withBoundary (numGoL rem) fun k =>
  let p2 := m.2 + k
  if p2 = pos ∨ (m.1 ∧ p2 = pos + 1) then .err ⟨("Expected number or date").toList, p2⟩
  else
    withBoundary (charsFrom input pos) fun remAll =>
    let text := remAll.take (p2 - pos)
    match tryParseDate text with
    | some d => .ok (.date d) p2
    | none =>
      match parseSimpleFloat text with
      | some x => .ok (.number x) p2
      | none => .err ⟨("Invalid number").toList, p2⟩

/-- `parse_value` from `src/query/parser.rs`. -/
def parseValue (input : List Char) (pos : Nat) : POut Value :=
  withBoundary (skipWsAt input pos) fun p =>
  withBoundary (matchChar input p '"') fun m =>
  if m.1 then parseStringLit input m.2 else
  withBoundary (matchKeyword input p (("true").toList)) fun mt =>
  if mt.1 then .ok (.bool true) mt.2 else
  withBoundary (matchKeyword input p (("false").toList)) fun mf =>
  if mf.1 then .ok (.bool false) mf.2 else
  parseNumberOrDate input p

/-- The identifier branch of `parse_primary` (entered when `(` did not
match; `pos` is already past leading whitespace): parse an identifier, then
either `contains Value` or `CompareOp Value`. -/
def parsePrimaryField (input : List Char) (pos : Nat) : POut Expr :=
  (parseIdentifier input pos).bind fun field p1 =>
  withBoundary (skipWsAt input p1) fun p2 =>
  withBoundary (matchKeyword input p2 (("contains").toList)) fun mk =>
  if mk.1 then
    withBoundary (skipWsAt input mk.2) fun p3 =>
    (parseValue input p3).bind fun v p4 => .ok (.containsE field v) p4
  else
    (parseOperator input p2).bind fun op p3 =>
    withBoundary (skipWsAt input p3) fun p4 =>
    (parseValue input p4).bind fun v p5 => .ok (.compare field op v) p5

mutual

/-- `parse_or` from `src/query/parser.rs`.  The `fuel` argument makes the
mutual recursion structural; every mutual call decrements it, and `parse`
supplies more than the call tree can consume. -/
def parseOr : Nat → List Char → Nat → POut Expr
  | 0, _, _ => .fuel
  | f + 1, input, pos =>
    match parseAnd f input pos with
    | .panic => .panic
    | .fuel => .fuel
    | .err e => .err e
    | .ok left p => parseOrGo f input left p
termination_by structural fuel _ _ => fuel

/-- The `loop` inside `parse_or` (left-associative folding of `OR`). -/
def parseOrGo : Nat → List Char → Expr → Nat → POut Expr
  | 0, _, _, _ => .fuel
  | f + 1, input, left, pos =>
    match skipWsAt input pos with
    | none => .panic
    | some p =>
      match matchKeyword input p (("OR").toList) with
      | none => .panic
      | some (false, _) => .ok left p
      | some (true, p1) =>
        match parseAnd f input p1 with
        | .panic => .panic
        | .fuel => .fuel
        | .err e => .err e
        | .ok right p2 => parseOrGo f input (.or left right) p2
termination_by structural fuel _ _ _ => fuel

/-- `parse_and` from `src/query/parser.rs`. -/
def parseAnd : Nat → List Char → Nat → POut Expr
  | 0, _, _ => .fuel
  | f + 1, input, pos =>
    match parsePrimary f input pos with
    | .panic => .panic
    | .fuel => .fuel
    | .err e => .err e
    | .ok left p => parseAndGo f input left p
termination_by structural fuel _ _ => fuel

/-- The `loop` inside `parse_and` (left-associative folding of `AND`). -/
def parseAndGo : Nat → List Char → Expr → Nat → POut Expr
  | 0, _, _, _ => .fuel
  | f + 1, input, left, pos =>
    match skipWsAt input pos with
    | none => .panic
    | some p =>
      match matchKeyword input p (("AND").toList) with
      | none => .panic
      | some (false, _) => .ok left p
      | some (true, p1) =>
        match parsePrimary f input p1 with
        | .panic => .panic
        | .fuel => .fuel
        | .err e => .err e
        | .ok right p2 => parseAndGo f input (.and left right) p2
termination_by structural fuel _ _ _ => fuel

/-- `parse_primary` from `src/query/parser.rs`. -/
def parsePrimary : Nat → List Char → Nat → POut Expr
  | 0, _, _ => .fuel
  | f + 1, input, pos =>
    match skipWsAt input pos with
    | none => .panic
    | some p =>
      match matchChar input p '(' with
      | none => .panic
      | some (false, _) => parsePrimaryField input p
      | some (true, p1) =>
        match parseOr f input p1 with
        | .panic => .panic
        | .fuel => .fuel
        | .err e => .err e
        | .ok e p2 =>
          match skipWsAt input p2 with
          | none => .panic
          | some p3 =>
            match matchChar input p3 ')' with
            | none => .panic
            | some (true, p4) => .ok e p4
            | some (false, _) => .err ⟨("Expected \x27)\x27").toList, p3⟩
termination_by structural fuel _ _ => fuel

end

/-- `Parser::parse` from `src/query/parser.rs`: parse an `OrExpr`, then
require that only whitespace remains.  The fuel budget exceeds what the call
tree of any input can consume. -/
def parse (input : List Char) : POut Expr :=
  (parseOr (5 * byteLen input + 10) input 0).bind fun e p =>
  withBoundary (skipWsAt input p) fun p2 =>
  if p2 < byteLen input then .err ⟨("Unexpected input after expression").toList, p2⟩
  else .ok e p2

/-! ## Auxiliary definitions used by the statements and proofs -/

/-- All characters of `l` are ASCII. -/
def AsciiL (l : List Char) : Prop := ∀ c ∈ l, c.toNat < 128

/-- The word-boundary test `match_keyword` applies to the character at char
index `k` of `l`: absent, or neither alphanumeric nor `_`. -/
def boundaryOk (l : List Char) (k : Nat) : Bool :=
  match (l.drop k).head? with
  | none => true
  | some c => !rustIsAlphanumeric c && c != '_'

/-- Decimal value of a digit string (total; meaningful on all-digit lists). -/
def digitsValue (l : List Char) : Nat :=
  l.foldl (fun a c => a * 10 + digitVal c) 0

/-- Reference decimal representation (recursion on the value; used to reason
about the fuel-driven `natDigits`). -/
def natRepr (n : Nat) : List Char :=
  if n < 10 then [digitChar n]
  else natRepr (n / 10) ++ [digitChar (n % 10)]
decreasing_by exact Nat.div_lt_self (by omega) (by omega)

/-- A simple comparison primary `field op number`, the quantification domain
for the precedence/associativity claim. -/
structure SPrim where
  field : List Char
  op : CompareOp
  num : Nat

/-- The token the parser's operator table accepts for each operator. -/
def opTok : CompareOp → List Char
  | .Eq => ['=']
  | .Ne => ['!', '=']
  | .Gt => ['>']
  | .Lt => ['<']
  | .Ge => ['>', '=']
  | .Le => ['<', '=']

/-- Concrete syntax of a simple primary: `field op number`. -/
def printPrim (p : SPrim) : List Char :=
  p.field ++ ' ' :: (opTok p.op ++ ' ' :: natDigits p.num)

/-- The tree a simple primary denotes. -/
def toExpr (p : SPrim) : Expr := .compare p.field p.op (.number ⟨(p.num : Int), 0⟩)

/-- A usable field name: nonempty, made of ASCII identifier characters. -/
def validField (f : List Char) : Prop :=
  f ≠ [] ∧ ∀ c ∈ f, identChar c = true ∧ c.toNat < 128

/-! ## Bridge lemmas: `F64` cross-multiplication agrees with rational order -/

theorem f64Lt_iff (a b : F64) : f64Lt a b = true ↔ a.toRat < b.toRat := by
  unfold f64Lt F64.toRat
  rw [decide_eq_true_eq, div_lt_div_iff₀ (by positivity) (by positivity)]
  exact_mod_cast Iff.rfl

theorem f64Le_iff (a b : F64) : f64Le a b = true ↔ a.toRat ≤ b.toRat := by
  unfold f64Le F64.toRat
  rw [decide_eq_true_eq, div_le_div_iff₀ (by positivity) (by positivity)]
  exact_mod_cast Iff.rfl

theorem f64Sub_toRat (a b : F64) : (f64Sub a b).toRat = a.toRat - b.toRat := by
  unfold f64Sub F64.toRat
  have h1 : ((10 : ℚ) ^ a.e) ≠ 0 := by positivity
  have h2 : ((10 : ℚ) ^ b.e) ≠ 0 := by positivity
  push_cast
  field_simp
  ring

theorem f64Abs_toRat (a : F64) : (f64Abs a).toRat = |a.toRat| := by
  unfold f64Abs F64.toRat
  rw [abs_div]
  push_cast
  congr 1
  rw [abs_of_pos]
  positivity

theorem EPSILON_toRat : EPSILON.toRat = 1 / 2 ^ 52 := by
  unfold EPSILON F64.toRat
  rw [div_eq_div_iff (by positivity) (by positivity)]
  norm_num

/-- C1: the evaluator is a total function into `Bool`; an absent field makes
both `Compare` and `Contains` false; any ordering operator applied to a
`Bool` literal is false regardless of the document; and a document value
that fails the coercion demanded by the literal kind (not renderable as a
string, not a native number, not a native boolean, not parseable as a date —
in particular a malformed date string) makes the comparison false instead
of erroring. -/
theorem C1_evaluator_total_soft_fail :
    (∀ e fm, evaluate e fm = true ∨ evaluate e fm = false) ∧
    (∀ fm f op v, getFieldCaseInsensitive fm f = none →
      evaluate (.compare f op v) fm = false ∧ evaluate (.containsE f v) fm = false) ∧
    (∀ fm f op b, op = .Gt ∨ op = .Lt ∨ op = .Ge ∨ op = .Le →
      evaluate (.compare f op (.bool b)) fm = false) ∧
    (∀ fm f op s fv, getFieldCaseInsensitive fm f = some fv → yamlToString fv = none →
      evaluate (.compare f op (.string s)) fm = false) ∧
    (∀ fm f op n fv, getFieldCaseInsensitive fm f = some fv → yamlToNumber fv = none →
      evaluate (.compare f op (.number n)) fm = false) ∧
    (∀ fm f op b fv, getFieldCaseInsensitive fm f = some fv → yamlAsBool fv = none →
      evaluate (.compare f op (.bool b)) fm = false) ∧
    (∀ fm f op d fv, getFieldCaseInsensitive fm f = some fv → yamlToDate fv = none →
      evaluate (.compare f op (.date d)) fm = false) := by
  refine ⟨fun e fm => Bool.eq_false_or_eq_true _, ?_, ?_, ?_, ?_, ?_, ?_⟩
  · intro fm f op v h
    exact ⟨by simp [evaluate, evalCompare, tryEvalCompare, h],
           by simp [evaluate, evalContains, h]⟩
  · intro fm f op b hop
    cases h : getFieldCaseInsensitive fm f with
    | none => simp [evaluate, evalCompare, tryEvalCompare, h]
    | some fv =>
      cases hb : yamlAsBool fv with
      | none => simp [evaluate, evalCompare, tryEvalCompare, h, hb]
      | some bb =>
        rcases hop with rfl | rfl | rfl | rfl <;>
          simp [evaluate, evalCompare, tryEvalCompare, h, hb]
  · intro fm f op s fv h hs
    simp [evaluate, evalCompare, tryEvalCompare, h, hs]
  · intro fm f op n fv h hn
    simp [evaluate, evalCompare, tryEvalCompare, h, hn]
  · intro fm f op b fv h hb
    simp [evaluate, evalCompare, tryEvalCompare, h, hb]
  · intro fm f op d fv h hd
    simp [evaluate, evalCompare, tryEvalCompare, h, hd]

/-- C1 witness: the clauses of `C1_evaluator_total_soft_fail` at concrete
inputs (absent field; `Gt` against a boolean; a string query against a
number-free document value; a number query against a boolean; a boolean
query against a string; a date query against a malformed date string). -/
theorem C1_witness :
    evaluate (.compare (("a").toList) .Eq (.string (("x").toList))) .null = false ∧
    evaluate (.containsE (("a").toList) (.string (("x").toList))) .null = false ∧
    evaluate (.compare (("f").toList) .Gt (.bool true))
      (.mapping [(.string (("f").toList), .bool true)]) = false ∧
    evaluate (.compare (("f").toList) .Eq (.string (("x").toList)))
      (.mapping [(.string (("f").toList), .null)]) = false ∧
    evaluate (.compare (("f").toList) .Eq (.number ⟨1, 0⟩))
      (.mapping [(.string (("f").toList), .bool true)]) = false ∧
    evaluate (.compare (("f").toList) .Eq (.bool true))
      (.mapping [(.string (("f").toList), .string (("true").toList))]) = false ∧
    evaluate (.compare (("f").toList) .Ge (.date ⟨2024, 1, 1⟩))
      (.mapping [(.string (("f").toList), .string (("2024-xx-01").toList))]) = false := by
  have h := C1_evaluator_total_soft_fail
  refine ⟨(h.2.1 _ _ .Eq _ (by rfl)).1, (h.2.1 _ _ .Eq _ (by rfl)).2,
          h.2.2.1 _ _ .Gt true (Or.inl rfl), ?_, ?_, ?_, ?_⟩
  · exact h.2.2.2.1 _ _ .Eq _ .null (by rfl) (by rfl)
  · exact h.2.2.2.2.1 _ _ .Eq _ (.bool true) (by rfl) (by rfl)
  · exact h.2.2.2.2.2.1 _ _ .Eq _ (.string (("true").toList)) (by rfl) (by rfl)
  · exact h.2.2.2.2.2.2 _ _ .Ge _ (.string (("2024-xx-01").toList)) (by rfl) (by decide)

/-- C7: numeric comparison: only a native numeric document value qualifies
(booleans and strings are never coerced); when it does, the order operators
compare the exact values directly while `Eq`/`Ne` use the
`|a - b| < f64::EPSILON` tolerance; in particular `Eq 1.0` matches a
document value `1.0 + 1e-20`. -/
theorem C7_numeric_comparison :
    (∀ fv n, yamlToNumber fv = some (.fin n) ↔ fv = .number n) ∧
    (∀ fm f n a, getFieldCaseInsensitive fm f = some (.number a) →
      (evaluate (.compare f .Eq (.number n)) fm = true ↔
        |a.toRat - n.toRat| < 1 / 2 ^ 52) ∧
      (evaluate (.compare f .Ne (.number n)) fm = true ↔
        1 / 2 ^ 52 ≤ |a.toRat - n.toRat|) ∧
      (evaluate (.compare f .Gt (.number n)) fm = true ↔ n.toRat < a.toRat) ∧
      (evaluate (.compare f .Lt (.number n)) fm = true ↔ a.toRat < n.toRat) ∧
      (evaluate (.compare f .Ge (.number n)) fm = true ↔ n.toRat ≤ a.toRat) ∧
      (evaluate (.compare f .Le (.number n)) fm = true ↔ a.toRat ≤ n.toRat)) ∧
    (∀ fm f op n fv, getFieldCaseInsensitive fm f = some fv → yamlToNumber fv = none →
      evaluate (.compare f op (.number n)) fm = false) ∧
    evaluate (.compare (("p").toList) .Eq (.number ⟨1, 0⟩))
      (.mapping [(.string (("p").toList), .number ⟨100000000000000000001, 20⟩)]) = true := by
  refine ⟨?_, ?_, ?_, by decide⟩
  · intro fv n
    cases fv <;> simp [yamlToNumber]
  · intro fm f n a h
    have heps : EPSILON.toRat = 1 / 2 ^ 52 := EPSILON_toRat
    have habs : (f64Abs (f64Sub a n)).toRat = |a.toRat - n.toRat| := by
      rw [f64Abs_toRat, f64Sub_toRat]
    refine ⟨?_, ?_, ?_, ?_, ?_, ?_⟩ <;>
      simp only [evaluate, evalCompare, tryEvalCompare, h, yamlToNumber, Option.bind,
        compareFloatR, compareFloat, Option.getD]
    · rw [show (f64Lt (f64Abs (f64Sub a n)) EPSILON = true ↔
          |a.toRat - n.toRat| < 1 / 2 ^ 52) from by rw [f64Lt_iff, habs, heps]]
    · rw [Bool.not_eq_true', ← Bool.not_eq_true, f64Lt_iff, habs, heps, not_lt]
    · rw [f64Lt_iff]
    · rw [f64Lt_iff]
    · rw [f64Le_iff]
    · rw [f64Le_iff]
  · intro fm f op n fv h hn
    simp [evaluate, evalCompare, tryEvalCompare, h, hn]

/-- C7 witness: the quantified clauses of `C7_numeric_comparison` at a
concrete resolved numeric field (document value `2.5`, query `2`). -/
theorem C7_witness :
    (evaluate (.compare (("p").toList) .Gt (.number ⟨2, 0⟩))
       (.mapping [(.string (("p").toList), .number ⟨25, 1⟩)]) = true ↔
       (F64.toRat ⟨2, 0⟩) < (F64.toRat ⟨25, 1⟩)) ∧
    evaluate (.compare (("p").toList) .Eq (.number ⟨2, 0⟩))
       (.mapping [(.string (("p").toList), .bool true)]) = false :=
  ⟨((C7_numeric_comparison).2.1 _ _ ⟨2, 0⟩ ⟨25, 1⟩ (by rfl)).2.2.1,
   (C7_numeric_comparison).2.2.1 _ _ .Eq ⟨2, 0⟩ (.bool true) (by rfl) (by rfl)⟩

/-- C9: date evaluation: the document side must be a string splitting into
three integer-parseable parts, with no month/day range validation at
evaluation time (`"2024-02-30"` is accepted); the comparison is by the
lexicographic order on (year, month, day). -/
theorem C9_date_evaluation :
    yamlToDate (.string (("2024-02-30").toList)) = some ⟨2024, 2, 30⟩ ∧
    (∀ fv d, yamlToDate fv = some d → ∃ s, fv = .string s) ∧
    (∀ fm f op d fv, getFieldCaseInsensitive fm f = some fv →
      evaluate (.compare f op (.date d)) fm =
        (match yamlToDate fv with
         | none => false
         | some fd => (compareOrdWith dateCmp fd d op).getD false)) ∧
    (∀ d1 d2 : Date, dateCmp d1 d2 = .lt ↔
      (d1.year < d2.year ∨ (d1.year = d2.year ∧ (d1.month < d2.month ∨
        (d1.month = d2.month ∧ d1.day < d2.day))))) ∧
    (∀ d1 d2 : Date, dateCmp d1 d2 = .eq ↔ d1 = d2) := by
  refine ⟨by decide, ?_, ?_, ?_, ?_⟩
  · intro fv d h
    cases fv <;> simp [yamlToDate, yamlAsStr] at h ⊢
  · intro fm f op d fv h
    cases hd : yamlToDate fv <;>
      simp [evaluate, evalCompare, tryEvalCompare, h, hd]
  · intro d1 d2
    obtain ⟨y1, mo1, da1⟩ := d1
    obtain ⟨y2, mo2, da2⟩ := d2
    simp only [dateCmp, intCmp, natCmp]
    split_ifs <;> simp_all <;> omega
  · intro d1 d2
    obtain ⟨y1, mo1, da1⟩ := d1
    obtain ⟨y2, mo2, da2⟩ := d2
    simp only [dateCmp, intCmp, natCmp]
    split_ifs <;> simp_all [Date.mk.injEq] <;> omega

/-- C9 witness: `created >= 2024-01-01` matches `"2024-06-15"` and rejects
`"2023-12-31"`, through the evaluation clause of `C9_date_evaluation`. -/
theorem C9_witness :
    evaluate (.compare (("created").toList) .Ge (.date ⟨2024, 1, 1⟩))
      (.mapping [(.string (("created").toList), .string (("2024-06-15").toList))]) =
      (match yamlToDate (.string (("2024-06-15").toList)) with
       | none => false
       | some fd => (compareOrdWith dateCmp fd ⟨2024, 1, 1⟩ .Ge).getD false) ∧
    (dateCmp ⟨2023, 12, 31⟩ ⟨2024, 1, 1⟩ = .lt ↔
      ((2023 : Int) < 2024 ∨ ((2023 : Int) = 2024 ∧ (12 < 1 ∨ (12 = 1 ∧ 31 < 1))))) :=
  ⟨(C9_date_evaluation).2.2.1 _ _ .Ge ⟨2024, 1, 1⟩ _ (by rfl),
   (C9_date_evaluation).2.2.2.1 ⟨2023, 12, 31⟩ ⟨2024, 1, 1⟩⟩

/-! ## Substring and lookup characterizations -/

/-- `listStarts` is the prefix relation. -/
theorem listStarts_iff (p l : List Char) : listStarts p l = true ↔ p <+: l := by
  induction p generalizing l with
  | nil => simp [listStarts]
  | cons a ps ih =>
    cases l with
    | nil => simp [listStarts]
    | cons c cs =>
      simp [listStarts, ih, List.cons_prefix_cons]

/-- `containsSub` decides the contiguous-substring (infix) relation, the
meaning of Rust's `str::contains` with a string needle. -/
theorem containsSub_iff (hay needle : List Char) :
    containsSub hay needle = true ↔ needle <:+: hay := by
  induction hay with
  | nil =>
    simp [containsSub, listStarts_iff]
  | cons c rest ih =>
    simp [containsSub, listStarts_iff, ih, List.infix_cons_iff]

/-- `get_field_case_insensitive` on a mapping finds the first entry whose
string key lowercases to the lowercased field name. -/
theorem getFieldGo_find (fl : List Char) (l : List (Yaml × Yaml)) :
    getFieldGo fl l =
      (l.find? fun p => match p.1 with
        | .string k => decide (lowerL k = fl)
        | _ => false).map Prod.snd := by
  induction l with
  | nil => rfl
  | cons kv rest ih =>
    obtain ⟨k, v⟩ := kv
    cases k <;> simp [getFieldGo, List.find?, ih] <;>
      split <;> simp_all [getFieldGo]

/-- C2: `Contains` asymmetry: a non-`String` query value is always false; on
a resolved sequence the needle must equal (after normalization) the rendering
of some element, element-wise, never by substring; on a resolved string-like
scalar the normalized needle must occur as a substring of the normalized
text; a resolved scalar that is not string-like is false. -/
theorem C2_contains_asymmetry :
    (∀ fm f v, (∀ s, v ≠ .string s) → evaluate (.containsE f v) fm = false) ∧
    (∀ fm f needle l, getFieldCaseInsensitive fm f = some (.sequence l) →
      (evaluate (.containsE f (.string needle)) fm = true ↔
        ∃ item ∈ l, ∃ s, yamlToString item = some s ∧
          normalizeForCompare s = normalizeForCompare needle)) ∧
    (∀ fm f needle fv ds, getFieldCaseInsensitive fm f = some fv →
      yamlAsSequence fv = none → yamlToString fv = some ds →
      (evaluate (.containsE f (.string needle)) fm = true ↔
        normalizeForCompare needle <:+: normalizeForCompare ds)) ∧
    (∀ fm f needle fv, getFieldCaseInsensitive fm f = some fv →
      yamlAsSequence fv = none → yamlToString fv = none →
      evaluate (.containsE f (.string needle)) fm = false) := by
  refine ⟨?_, ?_, ?_, ?_⟩
  · intro fm f v hv
    cases h : getFieldCaseInsensitive fm f with
    | none => simp [evaluate, evalContains, h]
    | some fv =>
      cases v with
      | string s => exact absurd rfl (hv s)
      | number n => simp [evaluate, evalContains, h]
      | bool b => simp [evaluate, evalContains, h]
      | date d => simp [evaluate, evalContains, h]
  · intro fm f needle l h
    simp only [evaluate, evalContains, h, yamlAsSequence, List.any_eq_true]
    constructor
    · rintro ⟨item, hmem, hitem⟩
      cases hs : yamlToString item with
      | none => rw [hs] at hitem; simp at hitem
      | some s =>
        rw [hs] at hitem
        simp at hitem
        exact ⟨item, hmem, s, hs, hitem⟩
    · rintro ⟨item, hmem, s, hs, heq⟩
      exact ⟨item, hmem, by simp [hs, heq]⟩
  · intro fm f needle fv ds h hseq hs
    simp only [evaluate, evalContains, h, hseq, hs]
    exact containsSub_iff _ _
  · intro fm f needle fv h hseq hs
    simp [evaluate, evalContains, h, hseq, hs]

/-- C2 witness: the clauses of `C2_contains_asymmetry` at concrete inputs:
`tags contains "project"` on `tags: [Project, TODO]` (element-wise, case
folded), `summary contains "kick"` on a scalar (substring), a `Number`
needle, and a resolved mapping value (neither sequence nor string-like). -/
theorem C2_witness :
    (evaluate (.containsE (("tags").toList) (.string (("project").toList)))
       (.mapping [(.string (("tags").toList),
         .sequence [.string (("Project").toList), .string (("TODO").toList)])]) = true ↔
       ∃ item ∈ [Yaml.string (("Project").toList), Yaml.string (("TODO").toList)],
         ∃ s, yamlToString item = some s ∧
           normalizeForCompare s = normalizeForCompare (("project").toList)) ∧
    (evaluate (.containsE (("summary").toList) (.string (("kick").toList)))
       (.mapping [(.string (("summary").toList), .string (("Project kickoff").toList))]) = true ↔
       normalizeForCompare (("kick").toList) <:+:
         normalizeForCompare (("Project kickoff").toList)) ∧
    evaluate (.containsE (("tags").toList) (.number ⟨1, 0⟩))
      (.mapping [(.string (("tags").toList), .sequence [])]) = false ∧
    evaluate (.containsE (("meta").toList) (.string (("x").toList)))
      (.mapping [(.string (("meta").toList), .mapping [])]) = false :=
  ⟨(C2_contains_asymmetry).2.1 _ _ _ _ (by rfl),
   (C2_contains_asymmetry).2.2.1 _ _ _ _ _ (by rfl) (by rfl) (by rfl),
   (C2_contains_asymmetry).1 _ _ (.number ⟨1, 0⟩) (fun s => by simp),
   (C2_contains_asymmetry).2.2.2 _ _ _ _ (by rfl) (by rfl) (by rfl)⟩

/-- C4: string comparison is fully case- and link-normalized: field lookup
takes the first mapping entry whose string key lowercases to the lowercased
query field; with a resolved string-like value both sides are normalized
(link-strip, then lowercase) and compared lexicographically under the
operator; equality therefore holds whenever the two sides agree up to casing
and link brackets, for any casing of field name or mapping key.  `strCmp` is
the lexicographic (code-point = byte-wise UTF-8) string order. -/
theorem C4_string_comparison_normalized :
    (∀ l f, getFieldCaseInsensitive (.mapping l) f =
      ((l.find? fun p => match p.1 with
        | .string k => decide (lowerL k = lowerL f)
        | _ => false).map Prod.snd)) ∧
    (∀ k f v rest, lowerL k = lowerL f →
      getFieldCaseInsensitive (.mapping ((.string k, v) :: rest)) f = some v) ∧
    (∀ fm f op s fv ds, getFieldCaseInsensitive fm f = some fv →
      yamlToString fv = some ds →
      evaluate (.compare f op (.string s)) fm =
        (compareOrdWith strCmp (normalizeForCompare ds) (normalizeForCompare s) op).getD false) ∧
    (∀ fm f s fv ds, getFieldCaseInsensitive fm f = some fv →
      yamlToString fv = some ds →
      normalizeForCompare ds = normalizeForCompare s →
      evaluate (.compare f .Eq (.string s)) fm = true) ∧
    (∀ a b : List Char, strCmp a b = .eq ↔ a = b) ∧
    normalizeForCompare (("[[Note]]").toList) = normalizeForCompare (("Note").toList) := by
  have hstr : ∀ a b : List Char, strCmp a b = .eq ↔ a = b := by
    intro a b
    induction a generalizing b with
    | nil => cases b <;> simp [strCmp]
    | cons x xs ih =>
      cases b with
      | nil => simp [strCmp]
      | cons y ys =>
        by_cases hxy : x < y
        · simp [strCmp, charCmp, hxy]
          intro h; subst h; exact absurd hxy (lt_irrefl _)
        · by_cases hyx : y < x
          · simp [strCmp, charCmp, hxy, hyx]
            intro h; subst h; exact absurd hyx (lt_irrefl _)
          · have hxyeq : x = y := le_antisymm (not_lt.mp hyx) (not_lt.mp hxy)
            subst hxyeq
            simp [strCmp, charCmp, ih]
  refine ⟨?_, ?_, ?_, ?_, hstr, by decide⟩
  · intro l f
    exact getFieldGo_find (lowerL f) l
  · intro k f v rest hk
    simp [getFieldCaseInsensitive, getFieldGo, hk]
  · intro fm f op s fv ds h hs
    simp [evaluate, evalCompare, tryEvalCompare, h, hs, compareStr]
  · intro fm f s fv ds h hs heq
    simp [evaluate, evalCompare, tryEvalCompare, h, hs, compareStr, heq,
      compareOrdWith, (hstr _ _).mpr rfl]

/-- C4 witness: lookup with differently-cased key and field, and equality
through casing plus link brackets (`status`/`Status`, `[[Done]]`/`done`). -/
theorem C4_witness :
    getFieldCaseInsensitive
      (.mapping [(.string (("Status").toList), .string (("[[Done]]").toList))])
      (("status").toList) = some (.string (("[[Done]]").toList)) ∧
    evaluate (.compare (("status").toList) .Eq (.string (("done").toList)))
      (.mapping [(.string (("Status").toList), .string (("[[Done]]").toList))]) = true :=
  ⟨(C4_string_comparison_normalized).2.1 _ _ _ [] (by decide),
   (C4_string_comparison_normalized).2.2.2.1 _ _ _ _ _ (by rfl) (by rfl) (by decide)⟩

/-- C3 (code bug): the parser is not total on UTF-8 input.  On `"é = 1"` the
identifier loop advances `pos` by one byte past the two-byte character `é`
(which Rust's `char::is_alphanumeric` accepts), so the next
`self.input[self.pos..]` slice in `current_char` is taken off a character
boundary and the Rust code panics — modelled by `.panic` — instead of
returning a `ParseError`.  On ASCII inputs the failure modes the claim
describes do hold: `"status ="` is a `ParseError` (missing value), a
complete expression followed by garbage is a `ParseError`, and a successful
parse consumes the whole input. -/
theorem C3_parse_panics_on_multibyte :
    parse (("é = 1").toList) = .panic ∧
    parse (("status =").toList) = .err ⟨("Expected number or date").toList, 8⟩ ∧
    parse (("x = 1 y").toList) = .err ⟨("Unexpected input after expression").toList, 6⟩ ∧
    parse (("x = 1").toList) = .ok (.compare (("x").toList) .Eq (.number ⟨1, 0⟩)) 5 :=
  ⟨by decide, by decide, by decide, by decide⟩

/-! ## ASCII infrastructure for parser reasoning -/

theorem utf8Width_ascii {c : Char} (h : c.toNat < 128) : utf8Width c = 1 := by
  simp [utf8Width, h]

theorem byteLen_cons (c : Char) (l : List Char) :
    byteLen (c :: l) = utf8Width c + byteLen l := by
  simp [byteLen]

theorem byteLen_ascii {l : List Char} (h : AsciiL l) : byteLen l = l.length := by
  induction l with
  | nil => rfl
  | cons c cs ih =>
    rw [byteLen_cons, utf8Width_ascii (h c (by simp)),
      ih (fun x hx => h x (List.mem_cons_of_mem _ hx)), List.length_cons]
    omega

theorem charsFrom_ascii {l : List Char} (h : AsciiL l) :
    ∀ pos, pos ≤ l.length → charsFrom l pos = some (l.drop pos) := by
  induction l with
  | nil =>
    intro pos hp
    simp only [List.length_nil, Nat.le_zero] at hp
    subst hp
    rfl
  | cons c cs ih =>
    intro pos hp
    cases pos with
    | zero => rfl
    | succ p =>
      have hw := utf8Width_ascii (h c (by simp))
      have hcs : AsciiL cs := fun x hx => h x (List.mem_cons_of_mem _ hx)
      simp only [charsFrom, hw]
      rw [if_neg (by omega)]
      have : p + 1 - 1 = p := by omega
      rw [this, ih hcs p (by simpa using hp)]
      rfl

theorem takeBytes_ascii {l : List Char} (h : AsciiL l) :
    ∀ k, k ≤ l.length → takeBytes l k = some (l.take k) := by
  induction l with
  | nil =>
    intro k hk
    simp only [List.length_nil, Nat.le_zero] at hk
    subst hk
    rfl
  | cons c cs ih =>
    intro k hk
    cases k with
    | zero => rfl
    | succ j =>
      have hw := utf8Width_ascii (h c (by simp))
      have hcs : AsciiL cs := fun x hx => h x (List.mem_cons_of_mem _ hx)
      simp only [takeBytes, hw]
      rw [if_pos (by omega)]
      have : j + 1 - 1 = j := by omega
      rw [this, ih hcs j (by simpa using hk)]
      rfl

theorem skipWsL_stop {c : Char} (h : rustIsWhitespace c = false) (rest : List Char) :
    skipWsL (c :: rest) = some 0 := by
  simp [skipWsL, h]

theorem skipWsL_space (rest : List Char) :
    skipWsL (' ' :: rest) = (skipWsL rest).map (· + 1) := by
  have h1 : rustIsWhitespace ' ' = true := by decide
  have h2 : utf8Width ' ' = 1 := by decide
  simp [skipWsL, h1, h2]

theorem skipWsAt_ascii {input : List Char} (hA : AsciiL input) {pos : Nat}
    (hpos : pos ≤ input.length) :
    skipWsAt input pos = (skipWsL (input.drop pos)).map (pos + ·) := by
  unfold skipWsAt
  rw [byteLen_ascii hA]
  by_cases h : input.length ≤ pos
  · have : pos = input.length := le_antisymm hpos h
    subst this
    rw [if_pos le_rfl, List.drop_length]
    rfl
  · rw [if_neg h, charsFrom_ascii hA pos hpos]

/-- Two characters in different decidable character classes are distinct. -/
theorem ne_of_class {P : Char → Bool} {c t : Char} (h : P c = true) (ht : P t = false) :
    c ≠ t := by
  intro he
  subst he
  rw [h] at ht
  cases ht

theorem identChar_not_ws {c : Char} (h : identChar c = true) :
    rustIsWhitespace c = false := by
  unfold identChar rustIsAlphanumeric at h
  unfold rustIsWhitespace
  simp only [Bool.or_eq_true, beq_iff_eq, decide_eq_true_eq] at h
  simp only [decide_eq_false_iff_not]
  rcases h with (h | rfl) | rfl
  · omega
  · decide
  · decide

theorem tokChar_not_ws {c : Char} (h : tokChar c = true) :
    rustIsWhitespace c = false := by
  unfold tokChar isDigitChar at h
  unfold rustIsWhitespace
  simp only [Bool.or_eq_true, beq_iff_eq, decide_eq_true_eq] at h
  simp only [decide_eq_false_iff_not]
  rcases h with (h | rfl) | rfl
  · omega
  · decide
  · decide

theorem tokChar_ascii {c : Char} (h : tokChar c = true) : c.toNat < 128 := by
  unfold tokChar isDigitChar at h
  simp only [Bool.or_eq_true, beq_iff_eq, decide_eq_true_eq] at h
  rcases h with (h | rfl) | rfl
  · omega
  · decide
  · decide

theorem digit_tokChar {c : Char} (h : isDigitChar c = true) : tokChar c = true := by
  simp [tokChar, h]

theorem identGoL_stop {c : Char} (h : identChar c = false) (cs : List Char) :
    identGoL (c :: cs) = some 0 := by
  simp [identGoL, h]

theorem identGoL_append {f : List Char} (hf : ∀ c ∈ f, identChar c = true ∧ c.toNat < 128)
    {rest : List Char} (hrest : identGoL rest = some 0) :
    identGoL (f ++ rest) = some f.length := by
  induction f with
  | nil => simpa using hrest
  | cons c cs ih =>
    have hc := hf c (by simp)
    rw [List.cons_append]
    simp [identGoL, hc.1, utf8Width_ascii hc.2,
      ih (fun x hx => hf x (by simp [hx]))]

theorem numGoL_stop {c : Char} (h : tokChar c = false) (cs : List Char) :
    numGoL (c :: cs) = some 0 := by
  simp [numGoL, h]

theorem numGoL_append {t : List Char} (ht : ∀ c ∈ t, tokChar c = true)
    {rest : List Char} (hrest : numGoL rest = some 0) :
    numGoL (t ++ rest) = some t.length := by
  induction t with
  | nil => simpa using hrest
  | cons c cs ih =>
    have hc := ht c (by simp)
    rw [List.cons_append]
    simp [numGoL, hc, utf8Width_ascii (tokChar_ascii hc),
      ih (fun x hx => ht x (by simp [hx]))]

theorem matchChar_at {input : List Char} (hA : AsciiL input) {pos : Nat} {c : Char}
    {rest : List Char} (hdrop : input.drop pos = c :: rest) (hpos : pos ≤ input.length)
    (t : Char) :
    matchChar input pos t = some (if c = t then (true, pos + 1) else (false, pos)) := by
  have hlt : pos < input.length := by
    rcases Nat.lt_or_ge pos input.length with h | h
    · exact h
    · rw [List.drop_eq_nil_of_le h] at hdrop; cases hdrop
  unfold matchChar currentChar
  rw [byteLen_ascii hA, if_pos hlt, charsFrom_ascii hA pos hpos, hdrop]
  by_cases h : c = t <;> simp [h]

theorem matchChar_nil {input : List Char} (hA : AsciiL input) {pos : Nat}
    (hdrop : input.length ≤ pos) (t : Char) :
    matchChar input pos t = some (false, pos) := by
  unfold matchChar
  rw [byteLen_ascii hA, if_neg (Nat.not_lt.mpr hdrop)]

theorem matchStr_at {input : List Char} (hA : AsciiL input) {pos : Nat}
    (hpos : pos ≤ input.length) (s : List Char) :
    matchStr input pos s =
      some (listStarts s (input.drop pos),
        if listStarts s (input.drop pos) then pos + byteLen s else pos) := by
  unfold matchStr
  rw [charsFrom_ascii hA pos hpos]
  cases hs : listStarts s (input.drop pos) <;> simp [hs]

theorem asciiCaseEqList_iff {a b : List Char} :
    asciiCaseEqList a b = true ↔ lowerL a = lowerL b := by
  induction a generalizing b with
  | nil => cases b <;> simp [asciiCaseEqList, lowerL]
  | cons x xs ih =>
    cases b with
    | nil => simp [asciiCaseEqList, lowerL]
    | cons y ys => simp [asciiCaseEqList, lowerL, asciiCaseEqChar, ih]

theorem asciiCaseEqList_length {a b : List Char} (h : asciiCaseEqList a b = true) :
    a.length = b.length := by
  have hl := asciiCaseEqList_iff.mp h
  have : (lowerL a).length = (lowerL b).length := by rw [hl]
  simpa [lowerL] using this

theorem matchKeyword_at {input kw : List Char} (hA : AsciiL input) (hkA : AsciiL kw)
    {pos : Nat} (hpos : pos ≤ input.length) :
    matchKeyword input pos kw =
      some (if asciiCaseEqList ((input.drop pos).take kw.length) kw &&
               boundaryOk (input.drop pos) kw.length
            then (true, pos + kw.length) else (false, pos)) := by
  have hAd : AsciiL (input.drop pos) := fun c hc => hA c (List.drop_subset _ _ hc)
  unfold matchKeyword
  simp only [charsFrom_ascii hA pos hpos, byteLen_ascii hAd, byteLen_ascii hkA]
  by_cases hlen : (input.drop pos).length < kw.length
  · rw [if_pos hlen]
    have hfalse : asciiCaseEqList ((input.drop pos).take kw.length) kw = false := by
      cases hc : asciiCaseEqList ((input.drop pos).take kw.length) kw
      · rfl
      · exfalso
        have hl := asciiCaseEqList_length hc
        rw [List.length_take] at hl
        omega
    simp [hfalse]
  · push_neg at hlen
    rw [if_neg (by omega), takeBytes_ascii hAd kw.length hlen]
    cases hc : asciiCaseEqList ((input.drop pos).take kw.length) kw with
    | false => simp [hc]
    | true =>
      simp only [hc]
      unfold boundaryOk
      cases hh : ((input.drop pos).drop kw.length).head? with
      | none => simp [hh]
      | some c =>
        cases hb : (!rustIsAlphanumeric c && c != '_') <;> simp [hh, hb]

/-- C8: keyword word-boundary: for ASCII input and any of the keywords
`AND`, `OR`, `contains`, `true`, `false`, `match_keyword` succeeds exactly
when the next `kw.length` characters of the input case-fold (ASCII) to the
keyword and the character after them is absent or neither alphanumeric nor
`_`; on success the position advances past the keyword, otherwise it is
unchanged.  Hence `parse ("android = 1")` yields the field `android` (not
the keyword `and` plus residue), and keywords are matched in any casing. -/
theorem C8_keyword_word_boundary :
    (∀ input kw pos, kw ∈ [("AND").toList, ("OR").toList, ("contains").toList,
        ("true").toList, ("false").toList] →
      AsciiL input → pos ≤ input.length →
      matchKeyword input pos kw =
        some (if lowerL ((input.drop pos).take kw.length) = lowerL kw ∧
                 boundaryOk (input.drop pos) kw.length = true
              then (true, pos + kw.length) else (false, pos))) ∧
    (parse (("android = 1").toList)).okVal =
      some (.compare (("android").toList) .Eq (.number ⟨1, 0⟩)) ∧
    (parse (("a = 1 oR b = 2").toList)).okVal =
      some (.or (.compare (("a").toList) .Eq (.number ⟨1, 0⟩))
                (.compare (("b").toList) .Eq (.number ⟨2, 0⟩))) ∧
    (parse (("tags CONTAINS \x22x\x22").toList)).okVal =
      some (.containsE (("tags").toList) (.string (("x").toList))) := by
  refine ⟨?_, by decide, by decide, by decide⟩
  intro input kw pos hkw hA hpos
  have hkA : AsciiL kw := by
    simp only [List.mem_cons, List.not_mem_nil, or_false] at hkw
    rcases hkw with rfl | rfl | rfl | rfl | rfl <;> (unfold AsciiL; decide)
  rw [matchKeyword_at hA hkA hpos]
  have hcond : (asciiCaseEqList ((input.drop pos).take kw.length) kw &&
      boundaryOk (input.drop pos) kw.length) = true ↔
      (lowerL ((input.drop pos).take kw.length) = lowerL kw ∧
       boundaryOk (input.drop pos) kw.length = true) := by
    rw [Bool.and_eq_true, asciiCaseEqList_iff]
  by_cases h : lowerL ((input.drop pos).take kw.length) = lowerL kw ∧
      boundaryOk (input.drop pos) kw.length = true
  · rw [if_pos h, if_pos (hcond.mpr h)]
  · rw [if_neg h, if_neg (fun hbb => h (hcond.mp hbb))]

/-- C8 witness: the characterization applied to the keyword `AND` inside the
input `android = 1` at position 0: the boundary character `r` is
alphanumeric, so the keyword does not match and the position is unchanged. -/
theorem C8_witness :
    matchKeyword (("android = 1").toList) 0 (("AND").toList) =
      some (if lowerL ((("android = 1").toList.drop 0).take 3) = lowerL (("AND").toList) ∧
               boundaryOk (("android = 1").toList.drop 0) 3 = true
            then (true, 0 + 3) else (false, 0)) :=
  (C8_keyword_word_boundary).1 _ _ 0 (by simp) (by unfold AsciiL; decide) (by decide)

/-! ## Token-level lemmas for `parse_number_or_date` -/

theorem splitOnChar_no_sep {sep : Char} {a : List Char} (h : ∀ c ∈ a, c ≠ sep) :
    splitOnChar sep a = [a] := by
  induction a with
  | nil => rfl
  | cons c cs ih =>
    have hc : c ≠ sep := h c (by simp)
    simp only [splitOnChar, if_neg hc, ih (fun x hx => h x (by simp [hx]))]

theorem splitOnChar_append {sep : Char} {a : List Char} (h : ∀ c ∈ a, c ≠ sep)
    (b : List Char) :
    splitOnChar sep (a ++ sep :: b) = a :: splitOnChar sep b := by
  induction a with
  | nil => simp [splitOnChar]
  | cons c cs ih =>
    have hc : c ≠ sep := h c (by simp)
    have ihh := ih (fun x hx => h x (by simp [hx]))
    simp only [List.cons_append, splitOnChar, if_neg hc, List.append_eq, ihh]

theorem digitsVal?_digits {l : List Char} (hne : l ≠ [])
    (hd : ∀ c ∈ l, isDigitChar c = true) :
    digitsVal? l = some (digitsValue l) := by
  rw [digitsVal?, if_pos ⟨hne, List.all_eq_true.mpr hd⟩]
  rfl

theorem not_contains_of_all {P : Char → Bool} {t : List Char}
    (h : ∀ c ∈ t, P c = true) {x : Char} (hx : P x = false) :
    t.contains x = false := by
  induction t with
  | nil => rfl
  | cons c cs ih =>
    have hcx : x ≠ c := (ne_of_class (h c (by simp)) hx).symm
    simp only [List.contains_cons, Bool.or_eq_false_iff]
    exact ⟨by simp [hcx], ih (fun y hy => h y (by simp [hy]))⟩

theorem digit_ne_dash {c : Char} (h : isDigitChar c = true) : c ≠ '-' :=
  ne_of_class h (by decide)

theorem digit_ne_dot {c : Char} (h : isDigitChar c = true) : c ≠ '.' :=
  ne_of_class h (by decide)

/-- `natDigitsGo` with sufficient fuel computes the reference representation. -/
theorem natDigitsGo_eq (n : Nat) :
    ∀ fuel, n ≤ fuel → ∀ acc, natDigitsGo fuel n acc = natRepr n ++ acc := by
  induction n using Nat.strong_induction_on with
  | _ n ih =>
    intro fuel hf acc
    cases fuel with
    | zero =>
      have hn : n = 0 := by omega
      subst hn
      rw [natRepr]
      simp [natDigitsGo]
    | succ f =>
      by_cases h10 : n < 10
      · rw [natRepr]
        simp [natDigitsGo, h10]
      · simp only [natDigitsGo, if_neg h10]
        rw [ih (n / 10) (Nat.div_lt_self (by omega) (by omega)) f (by omega)]
        conv_rhs => rw [natRepr]
        rw [if_neg h10]
        simp

theorem natDigits_eq_natRepr (n : Nat) : natDigits n = natRepr n := by
  simpa using natDigitsGo_eq n n le_rfl []

theorem digitChar_isDigit {d : Nat} (h : d < 10) : isDigitChar (digitChar d) = true := by
  interval_cases d <;> decide

theorem digitVal_digitChar {d : Nat} (h : d < 10) : digitVal (digitChar d) = d := by
  interval_cases d <;> decide

theorem natRepr_digits (n : Nat) : ∀ c ∈ natRepr n, isDigitChar c = true := by
  induction n using Nat.strong_induction_on with
  | _ n ih =>
    by_cases h10 : n < 10
    · rw [natRepr, if_pos h10]
      intro c hc
      simp only [List.mem_singleton] at hc
      subst hc
      exact digitChar_isDigit h10
    · rw [natRepr, if_neg h10]
      intro c hc
      rcases List.mem_append.mp hc with hc | hc
      · exact ih (n / 10) (Nat.div_lt_self (by omega) (by omega)) c hc
      · simp only [List.mem_singleton] at hc
        subst hc
        exact digitChar_isDigit (Nat.mod_lt _ (by omega))

theorem natRepr_ne_nil (n : Nat) : natRepr n ≠ [] := by
  by_cases h10 : n < 10 <;> rw [natRepr] <;> simp [h10]

theorem digitsValue_append_singleton (xs : List Char) (c : Char) :
    digitsValue (xs ++ [c]) = 10 * digitsValue xs + digitVal c := by
  simp [digitsValue, List.foldl_append]
  omega

theorem digitsValue_natRepr (n : Nat) : digitsValue (natRepr n) = n := by
  induction n using Nat.strong_induction_on with
  | _ n ih =>
    by_cases h10 : n < 10
    · rw [natRepr, if_pos h10]
      simp [digitsValue, digitVal_digitChar h10]
    · rw [natRepr, if_neg h10, digitsValue_append_singleton,
        ih (n / 10) (Nat.div_lt_self (by omega) (by omega)),
        digitVal_digitChar (Nat.mod_lt _ (by omega))]
      omega

/-- `parseSimpleFloat` on an unsigned all-digit token. -/
theorem parseSimpleFloat_digits {t : List Char} (hne : t ≠ [])
    (hd : ∀ c ∈ t, isDigitChar c = true) :
    parseSimpleFloat t = some ⟨(digitsValue t : Int), 0⟩ := by
  obtain ⟨c, cs, rfl⟩ := List.exists_cons_of_ne_nil hne
  have hc : c ≠ '-' := digit_ne_dash (hd c (by simp))
  have hmem : '-' ∉ c :: cs := fun hm => absurd (hd _ hm) (by decide)
  have hsp := splitOnChar_no_sep (fun x hx => digit_ne_dot (hd x hx))
  have hv := digitsVal?_digits hne hd
  have h1 : '-' ≠ c := fun h => hmem (by simp [← h])
  have h2 : '-' ∉ cs := fun h => hmem (List.mem_cons_of_mem c h)
  simp [parseSimpleFloat, hc, hsp, hv, digitsValue, h1, h2]

/-- `parseSimpleFloat` on an unsigned decimal token `ip.fp`. -/
theorem parseSimpleFloat_dotted {ip fp : List Char}
    (hip : ∀ c ∈ ip, isDigitChar c = true) (hfp : ∀ c ∈ fp, isDigitChar c = true)
    (hne : ip ≠ [] ∨ fp ≠ []) :
    parseSimpleFloat (ip ++ '.' :: fp) =
      some ⟨(digitsValue ip * 10 ^ fp.length + digitsValue fp : Int), fp.length⟩ := by
  have hfpD : '-' ∉ fp := fun hm => absurd (hfp _ hm) (by decide)
  have hsp2 := splitOnChar_no_sep (fun x hx => digit_ne_dot (hfp x hx))
  cases ip with
  | nil =>
    have hfNe : fp ≠ [] := by
      rcases hne with h | h
      · exact absurd rfl h
      · exact h
    simp [parseSimpleFloat, splitOnChar, hsp2, hfNe, hfpD, digitsValue]
    exact hfp
  | cons c cs =>
    have hc : '-' ≠ c := fun h =>
      absurd (hip c (by simp)) (by rw [← h]; decide)
    have hcsD : '-' ∉ cs ++ '.' :: fp := by
      intro hm
      rcases List.mem_append.mp hm with hm | hm
      · exact absurd (hip _ (List.mem_cons_of_mem c hm)) (by decide)
      · rcases List.mem_cons.mp hm with he | hm
        · cases he
        · exact absurd (hfp _ hm) (by decide)
    have hsp1 := splitOnChar_append
      (fun x hx => digit_ne_dot (hip x hx)) fp
    have hipcs : ∀ x ∈ cs, isDigitChar x = true :=
      fun x hx => hip x (List.mem_cons_of_mem c hx)
    have hipc : isDigitChar c = true := hip c (by simp)
    have hc2 : ¬c = '-' := fun h => hc h.symm
    simp only [List.cons_append] at hsp1
    simp [parseSimpleFloat, hc2, hc, hcsD, hsp1, hsp2, hipc, hipcs, digitsValue]
    exact ⟨hipcs, hfp⟩

/-- `parseSimpleFloat` treats a leading `-` as negating the rest. -/
theorem parseSimpleFloat_neg {t : List Char} (hh : t.head? ≠ some '-') {x : F64}
    (hx : parseSimpleFloat t = some x) :
    parseSimpleFloat ('-' :: t) = some ⟨-x.m, x.e⟩ := by
  have hnegT : (decide (('-' :: t).head? = some '-')) = true := by simp
  have hnegF : (decide (t.head? = some '-')) = false := by simp [hh]
  simp only [parseSimpleFloat, hnegF, Bool.false_eq_true, if_false, ite_false] at hx
  simp only [parseSimpleFloat, hnegT, if_true, ite_true, List.tail_cons]
  cases hcon : t.contains '-' with
  | true => rw [hcon] at hx; simp at hx
  | false =>
    rw [hcon] at hx
    simp only [Bool.false_eq_true, if_false] at hx ⊢
    cases hsp : splitOnChar '.' t with
    | nil => rw [hsp] at hx; simp at hx
    | cons p0 ps =>
      cases ps with
      | nil =>
        rw [hsp] at hx
        cases hv : digitsVal? p0 with
        | none => simp [hv] at hx
        | some v =>
          simp [hv] at hx
          simp [hv, ← hx]
      | cons p1 ps2 =>
        cases ps2 with
        | nil =>
          rw [hsp] at hx
          by_cases hcond : (p0.all isDigitChar && p1.all isDigitChar &&
              (!p0.isEmpty || !p1.isEmpty)) = true
          · simp only [hcond, if_true, Option.some.injEq] at hx
            simp only [hcond, if_true, Option.some.injEq]
            rw [← hx]
          · simp [hcond] at hx
        | cons _ _ =>
          rw [hsp] at hx; simp at hx

theorem parseI32_digits {t : List Char} (hne : t ≠ [])
    (hd : ∀ c ∈ t, isDigitChar c = true) (hb : digitsValue t ≤ 2147483647) :
    parseI32 t = some (digitsValue t : Int) := by
  obtain ⟨c, cs, rfl⟩ := List.exists_cons_of_ne_nil hne
  have h1 : (c :: cs).head? ≠ some '+' := by
    simp [ne_of_class (hd c (by simp)) (show isDigitChar '+' = false by decide)]
  have h2 : (c :: cs).head? ≠ some '-' := by
    simp [ne_of_class (hd c (by simp)) (show isDigitChar '-' = false by decide)]
  rw [parseI32, if_neg h1, if_neg h2, digitsVal?_digits hne hd]
  simp [hb]

theorem parseU8_digits {t : List Char} (hne : t ≠ [])
    (hd : ∀ c ∈ t, isDigitChar c = true) (hb : digitsValue t ≤ 255) :
    parseU8 t = some (digitsValue t) := by
  obtain ⟨c, cs, rfl⟩ := List.exists_cons_of_ne_nil hne
  have h1 : (c :: cs).head? ≠ some '+' := by
    simp [ne_of_class (hd c (by simp)) (show isDigitChar '+' = false by decide)]
  rw [parseU8, if_neg h1, digitsVal?_digits hne hd]
  simp [hb]

/-- `try_parse_date` on a well-formed all-digit `y-m-d` token. -/
theorem tryParseDate_digits {y mo d : List Char}
    (hy : ∀ c ∈ y, isDigitChar c = true) (hmo : ∀ c ∈ mo, isDigitChar c = true)
    (hd : ∀ c ∈ d, isDigitChar c = true)
    (hyne : y ≠ []) (hmone : mo ≠ []) (hdne : d ≠ [])
    (hybound : digitsValue y ≤ 2147483647)
    (hmolo : 1 ≤ digitsValue mo) (hmohi : digitsValue mo ≤ 12)
    (hdlo : 1 ≤ digitsValue d) (hdhi : digitsValue d ≤ 31) :
    tryParseDate (y ++ '-' :: (mo ++ '-' :: d)) =
      some ⟨(digitsValue y : Int), digitsValue mo, digitsValue d⟩ := by
  have hsp : splitOnChar '-' (y ++ '-' :: (mo ++ '-' :: d)) = [y, mo, d] := by
    rw [splitOnChar_append (fun x hx => digit_ne_dash (hy x hx)),
      splitOnChar_append (fun x hx => digit_ne_dash (hmo x hx)),
      splitOnChar_no_sep (fun x hx => digit_ne_dash (hd x hx))]
  simp [tryParseDate, hsp, parseI32_digits hyne hy hybound,
    parseU8_digits hmone hmo (by omega), parseU8_digits hdne hd (by omega),
    hmolo, hmohi, hdlo, hdhi]

/-- `parse_number_or_date` consumes the maximal token `t` at `pos` and
classifies it exactly as the source does: a valid date literal first,
otherwise a float parse, with the two error messages. -/
theorem parseNumberOrDate_at {input t rest : List Char} {pos : Nat}
    (hA : AsciiL input) (hpos : pos ≤ input.length)
    (hdrop : input.drop pos = t ++ rest)
    (ht : ∀ c ∈ t, tokChar c = true) (htne : t ≠ [])
    (hrest : numGoL rest = some 0) :
    parseNumberOrDate input pos =
      (match tryParseDate t with
       | some dd => .ok (.date dd) (pos + t.length)
       | none =>
         if t = ['-'] then .err ⟨("Expected number or date").toList, pos + 1⟩
         else
           match parseSimpleFloat t with
           | some x => .ok (.number x) (pos + t.length)
           | none => .err ⟨("Invalid number").toList, pos + t.length⟩) := by
  obtain ⟨c, cs, rfl⟩ := List.exists_cons_of_ne_nil htne
  have hdrop' : input.drop pos = c :: (cs ++ rest) := by simpa using hdrop
  have hlt : pos < input.length := by
    rcases Nat.lt_or_ge pos input.length with h | h
    · exact h
    · rw [List.drop_eq_nil_of_le h] at hdrop'; cases hdrop'
  have hcs : ∀ x ∈ cs, tokChar x = true := fun x hx => ht x (by simp [hx])
  have hdrop1 : input.drop (pos + 1) = cs ++ rest := by
    have h2 := List.drop_drop 1 pos input
    rw [hdrop'] at h2
    simpa using h2.symm
  have hcharsAll : charsFrom input pos = some ((c :: cs) ++ rest) := by
    rw [charsFrom_ascii hA pos hpos, hdrop]
  by_cases hc : c = '-'
  · subst hc
    have hm := matchChar_at hA hdrop' hpos '-'
    rw [if_pos rfl] at hm
    have hchars1 : charsFrom input (pos + 1) = some (cs ++ rest) := by
      rw [charsFrom_ascii hA (pos + 1) (by omega), hdrop1]
    have hnum : numGoL (cs ++ rest) = some cs.length := numGoL_append hcs hrest
    cases hcse : cs with
    | nil =>
      subst hcse
      simp only [parseNumberOrDate, withBoundary, hm, hchars1, hnum, hcharsAll]
      rw [if_pos (Or.inr ⟨trivial, by simp⟩)]
      simp [show tryParseDate ['-'] = none from by decide]
    | cons c2 cs2 =>
      subst hcse
      simp only [parseNumberOrDate, withBoundary, hm, hchars1, hnum, hcharsAll]
      have hcnd : ¬(pos + 1 + (c2 :: cs2).length = pos ∨
          True ∧ pos + 1 + (c2 :: cs2).length = pos + 1) := by
        simp only [List.length_cons, true_and]
        omega
      rw [if_neg hcnd]
      have htk : pos + 1 + (c2 :: cs2).length - pos =
          ('-' :: c2 :: cs2 : List Char).length := by
        simp only [List.length_cons]
        omega
      rw [htk, List.take_left]
      rw [if_neg (by simp : ¬('-' :: c2 :: cs2 = ['-']))]
      rcases htpd : tryParseDate ('-' :: c2 :: cs2) with _ | dd
      · rcases hpsf : parseSimpleFloat ('-' :: c2 :: cs2) with _ | x <;>
          simp [List.length_cons] <;> omega
      · simp [List.length_cons]
        omega
  · have hm := matchChar_at hA hdrop' hpos '-'
    rw [if_neg hc] at hm
    have hnum : numGoL ((c :: cs) ++ rest) = some (c :: cs).length :=
      numGoL_append ht hrest
    simp only [parseNumberOrDate, withBoundary, hm, hcharsAll, hnum]
    have hcnd : ¬(pos + (c :: cs).length = pos ∨
        false = true ∧ pos + (c :: cs).length = pos + 1) := by
      simp only [List.length_cons, Bool.false_eq_true, false_and, or_false]
      omega
    rw [if_neg hcnd]
    have htk : pos + (c :: cs).length - pos = (c :: cs : List Char).length := by
      omega
    rw [htk, List.take_left]
    rw [if_neg (by simp [hc] : ¬(c :: cs = ['-']))]

theorem digit_ascii {c : Char} (h : isDigitChar c = true) : c.toNat < 128 :=
  tokChar_ascii (digit_tokChar h)

/-- C6 counterexample: the claim as frozen is false at three concrete
inputs.  `1-2` is a numeric token that is not date-shaped, yet it is not
parsed as a `Number` — it fails with `Invalid number`.  `2147483648-1-1`
splits into three all-digit parts with month 1 and day 1, yet is not parsed
as a `Date` (the year does not fit in `i32`) and fails with
`Invalid number`.  `-.5` has a leading `-` not followed by a digit, yet it
parses as the `Number` `-0.5` rather than failing with
`Expected number or date`. -/
theorem C6_counterexample :
    parse (("x = 1-2").toList) = .err ⟨("Invalid number").toList, 7⟩ ∧
    parse (("x = 2147483648-1-1").toList) = .err ⟨("Invalid number").toList, 18⟩ ∧
    parse (("x = -.5").toList) = .ok (.compare (("x").toList) .Eq (.number ⟨-5, 1⟩)) 7 :=
  ⟨by decide, by decide, by decide⟩

/-- C6 (amended): a numeric token splitting on `-` into three nonempty
all-digit parts with the year fitting in `i32`, month ∈ [1,12] and
day ∈ [1,31] parses as a `Date`; any other nonempty token over the number
characters either matches the float grammar accepted by `f64::from_str`
(optional leading `-`, then `digits`, or `digits.digits`, or `.digits` —
characterized by the last three clauses) and parses as a `Number`, or fails
with `Invalid number`; and a `-` followed by no further number characters at
all fails with `Expected number or date`. -/
theorem C6_number_date_disambiguation :
    (∀ y mo d : List Char,
      (∀ c ∈ y, isDigitChar c = true) → (∀ c ∈ mo, isDigitChar c = true) →
      (∀ c ∈ d, isDigitChar c = true) → y ≠ [] → mo ≠ [] → d ≠ [] →
      digitsValue y ≤ 2147483647 →
      1 ≤ digitsValue mo → digitsValue mo ≤ 12 →
      1 ≤ digitsValue d → digitsValue d ≤ 31 →
      parseNumberOrDate (y ++ '-' :: (mo ++ '-' :: d)) 0 =
        .ok (.date ⟨(digitsValue y : Int), digitsValue mo, digitsValue d⟩)
          (y ++ '-' :: (mo ++ '-' :: d)).length) ∧
    (∀ t : List Char, t ≠ [] → (∀ c ∈ t, tokChar c = true) →
      tryParseDate t = none →
      parseNumberOrDate t 0 =
        (if t = ['-'] then .err ⟨("Expected number or date").toList, 1⟩
         else
           match parseSimpleFloat t with
           | some x => .ok (.number x) t.length
           | none => .err ⟨("Invalid number").toList, t.length⟩)) ∧
    (∀ t : List Char, t ≠ [] → (∀ c ∈ t, isDigitChar c = true) →
      parseSimpleFloat t = some ⟨(digitsValue t : Int), 0⟩) ∧
    (∀ ip fp : List Char, (∀ c ∈ ip, isDigitChar c = true) →
      (∀ c ∈ fp, isDigitChar c = true) → (ip ≠ [] ∨ fp ≠ []) →
      parseSimpleFloat (ip ++ '.' :: fp) =
        some ⟨(digitsValue ip * 10 ^ fp.length + digitsValue fp : Int), fp.length⟩) ∧
    (∀ t : List Char, t.head? ≠ some '-' → ∀ x : F64,
      parseSimpleFloat t = some x →
      parseSimpleFloat ('-' :: t) = some ⟨-x.m, x.e⟩) := by
  refine ⟨?_, ?_, fun t h1 h2 => parseSimpleFloat_digits h1 h2,
    fun ip fp h1 h2 h3 => parseSimpleFloat_dotted h1 h2 h3,
    fun t h1 x h2 => parseSimpleFloat_neg h1 h2⟩
  · intro y mo d hy hmo hd hyne hmone hdne hyb hml hmh hdl hdh
    have hA : AsciiL (y ++ '-' :: (mo ++ '-' :: d)) := by
      intro c hcmem
      rcases List.mem_append.mp hcmem with h | h
      · exact digit_ascii (hy _ h)
      · rcases List.mem_cons.mp h with rfl | h
        · decide
        · rcases List.mem_append.mp h with h | h
          · exact digit_ascii (hmo _ h)
          · rcases List.mem_cons.mp h with rfl | h
            · decide
            · exact digit_ascii (hd _ h)
    have ht : ∀ c ∈ y ++ '-' :: (mo ++ '-' :: d), tokChar c = true := by
      intro c hcmem
      rcases List.mem_append.mp hcmem with h | h
      · exact digit_tokChar (hy _ h)
      · rcases List.mem_cons.mp h with rfl | h
        · decide
        · rcases List.mem_append.mp h with h | h
          · exact digit_tokChar (hmo _ h)
          · rcases List.mem_cons.mp h with rfl | h
            · decide
            · exact digit_tokChar (hd _ h)
    rw [parseNumberOrDate_at hA (Nat.zero_le _)
      (show (y ++ '-' :: (mo ++ '-' :: d)).drop 0 =
        (y ++ '-' :: (mo ++ '-' :: d)) ++ [] by simp) ht (by simp [hyne]) rfl]
    simp [tryParseDate_digits hy hmo hd hyne hmone hdne hyb hml hmh hdl hdh]
  · intro t htne ht hdate
    rw [parseNumberOrDate_at (fun c hc => tokChar_ascii (ht c hc)) (Nat.zero_le _)
      (show t.drop 0 = t ++ [] by simp) ht htne rfl]
    rw [hdate]
    rcases hpsf : parseSimpleFloat t with _ | x <;> simp [hpsf]

/-- C6 witness: the clauses of `C6_number_date_disambiguation` at concrete
tokens: `2024-1-15` (date), `1-2` (not a date, fails the float grammar,
`Invalid number`), `35` (digits), `3.5` (dotted), and negation of `3.5`. -/
theorem C6_witness :
    parseNumberOrDate ((("2024").toList) ++ '-' :: ((("1").toList) ++ '-' :: (("15").toList))) 0 =
      .ok (.date ⟨(digitsValue (("2024").toList) : Int), digitsValue (("1").toList),
        digitsValue (("15").toList)⟩)
        (((("2024").toList) ++ '-' :: ((("1").toList) ++ '-' :: (("15").toList))).length) ∧
    parseNumberOrDate (("1-2").toList) 0 =
      (if (("1-2").toList) = ['-'] then .err ⟨("Expected number or date").toList, 1⟩
       else
         match parseSimpleFloat (("1-2").toList) with
         | some x => .ok (.number x) (("1-2").toList).length
         | none => .err ⟨("Invalid number").toList, (("1-2").toList).length⟩) ∧
    parseSimpleFloat (("35").toList) = some ⟨(digitsValue (("35").toList) : Int), 0⟩ ∧
    parseSimpleFloat ((("3").toList) ++ '.' :: (("5").toList)) =
      some ⟨(digitsValue (("3").toList) * 10 ^ (("5").toList).length +
        digitsValue (("5").toList) : Int), (("5").toList).length⟩ ∧
    parseSimpleFloat ('-' :: (("3.5").toList)) = some ⟨-(35 : Int), 1⟩ :=
  ⟨(C6_number_date_disambiguation).1 _ _ _ (by decide) (by decide) (by decide)
      (by decide) (by decide) (by decide) (by decide) (by decide) (by decide)
      (by decide) (by decide),
   (C6_number_date_disambiguation).2.1 _ (by decide) (by decide) (by decide),
   (C6_number_date_disambiguation).2.2.1 _ (by decide) (by decide),
   (C6_number_date_disambiguation).2.2.2.1 _ _ (by decide) (by decide)
      (Or.inl (by decide)),
   (C6_number_date_disambiguation).2.2.2.2 (("3.5").toList) (by decide) ⟨35, 1⟩
      (by decide)⟩
/-! ## Infrastructure for the precedence/associativity claim (C5) -/

theorem asciiL_append {a b : List Char} (ha : AsciiL a) (hb : AsciiL b) :
    AsciiL (a ++ b) := by
  intro c hc
  rcases List.mem_append.mp hc with h | h
  · exact ha c h
  · exact hb c h

theorem asciiLower_of_lt {c : Char} (h : c.toNat < 65) : asciiLower c = c := by
  unfold asciiLower
  rw [if_neg]
  rintro ⟨h1, _⟩
  rw [Char.le_def] at h1
  have h3 : (65 : Nat) ≤ c.val.toNat := h1
  have h4 : c.val.toNat = c.toNat := rfl
  omega

theorem asciiCaseEqChar_digit {c t : Char} (hc : isDigitChar c = true)
    (ht : isDigitChar (asciiLower t) = false) :
    asciiCaseEqChar c t = false := by
  have hlt : c.toNat < 65 := by
    unfold isDigitChar at hc
    simp only [decide_eq_true_eq] at hc
    omega
  unfold asciiCaseEqChar
  rw [asciiLower_of_lt hlt]
  simp only [beq_eq_false_iff_ne, ne_eq]
  intro he
  rw [← he] at ht
  rw [hc] at ht
  cases ht

theorem asciiCaseEqList_cons_ne {a b : Char} {l1 l2 : List Char}
    (h : asciiCaseEqChar a b = false) :
    asciiCaseEqList (a :: l1) (b :: l2) = false := by
  simp [asciiCaseEqList, h]

theorem drop_of_append (pos : Nat) {input X Y : List Char} {q : Nat}
    (hdrop : input.drop pos = X ++ Y) (hq : q = pos + X.length) :
    input.drop q = Y := by
  subst hq
  have h2 := List.drop_drop X.length pos input
  rw [hdrop, List.drop_left] at h2
  exact h2.symm

theorem pos_le_of_drop {input X : List Char} {pos q : Nat}
    (hdrop : input.drop pos = X) (hpos : pos ≤ input.length) (hq : q ≤ pos + X.length) :
    q ≤ input.length := by
  have h := congrArg List.length hdrop
  rw [List.length_drop] at h
  omega

theorem skipWsAt_stop {input l : List Char} {pos : Nat} {c : Char}
    (hA : AsciiL input) (hpos : pos ≤ input.length)
    (hdrop : input.drop pos = c :: l) (hc : rustIsWhitespace c = false) :
    skipWsAt input pos = some pos := by
  rw [skipWsAt_ascii hA hpos, hdrop, skipWsL_stop hc]
  rfl

theorem skipWsAt_space {input l : List Char} {pos : Nat} {c : Char}
    (hA : AsciiL input) (hpos : pos ≤ input.length)
    (hdrop : input.drop pos = ' ' :: c :: l) (hc : rustIsWhitespace c = false) :
    skipWsAt input pos = some (pos + 1) := by
  rw [skipWsAt_ascii hA hpos, hdrop, skipWsL_space, skipWsL_stop hc]
  rfl

theorem skipWsAt_end {input : List Char} {pos : Nat} (hA : AsciiL input)
    (hpos : pos ≤ input.length) (hdrop : input.drop pos = []) :
    skipWsAt input pos = some pos := by
  rw [skipWsAt_ascii hA hpos, hdrop]
  rfl

theorem matchKeyword_head_ne {input : List Char} {pos : Nat} {c k : Char}
    {l ks : List Char} (hA : AsciiL input) (hkA : AsciiL (k :: ks))
    (hpos : pos ≤ input.length) (hdrop : input.drop pos = c :: l)
    (hne : asciiCaseEqChar c k = false) :
    matchKeyword input pos (k :: ks) = some (false, pos) := by
  rw [matchKeyword_at hA hkA hpos, hdrop]
  simp [List.take_succ_cons, asciiCaseEqList_cons_ne hne]

theorem matchKeyword_nil_false {input : List Char} {pos : Nat} {k : Char}
    {ks : List Char} (hA : AsciiL input) (hkA : AsciiL (k :: ks))
    (hpos : pos ≤ input.length) (hdrop : input.drop pos = []) :
    matchKeyword input pos (k :: ks) = some (false, pos) := by
  rw [matchKeyword_at hA hkA hpos, hdrop]
  simp [show asciiCaseEqList [] (k :: ks) = false from rfl]

theorem take_two (a b : Char) (l : List Char) : (a :: b :: l).take 2 = [a, b] := rfl

theorem drop_two (a b : Char) (l : List Char) : (a :: b :: l).drop 2 = l := rfl

theorem take_three (a b c : Char) (l : List Char) :
    (a :: b :: c :: l).take 3 = [a, b, c] := rfl

theorem drop_three (a b c : Char) (l : List Char) : (a :: b :: c :: l).drop 3 = l := rfl

theorem matchKeyword_AND {input Z : List Char} {pos : Nat} (hA : AsciiL input)
    (hpos : pos ≤ input.length)
    (hdrop : input.drop pos = 'A' :: 'N' :: 'D' :: ' ' :: Z) :
    matchKeyword input pos (("AND").toList) = some (true, pos + 3) := by
  rw [matchKeyword_at hA (by unfold AsciiL; decide) hpos, hdrop]
  have h3 : (("AND").toList).length = 3 := rfl
  rw [h3, take_three]
  have hb : boundaryOk ('A' :: 'N' :: 'D' :: ' ' :: Z) 3 = true := by
    unfold boundaryOk
    rw [drop_three]
    simp only [List.head?_cons]
    decide
  rw [hb]
  simp [show asciiCaseEqList ['A', 'N', 'D'] ['A', 'N', 'D'] = true from by decide]

theorem matchKeyword_OR {input Z : List Char} {pos : Nat} (hA : AsciiL input)
    (hpos : pos ≤ input.length)
    (hdrop : input.drop pos = 'O' :: 'R' :: ' ' :: Z) :
    matchKeyword input pos (("OR").toList) = some (true, pos + 2) := by
  rw [matchKeyword_at hA (by unfold AsciiL; decide) hpos, hdrop]
  have h2 : (("OR").toList).length = 2 := rfl
  rw [h2, take_two]
  have hb : boundaryOk ('O' :: 'R' :: ' ' :: Z) 2 = true := by
    unfold boundaryOk
    rw [drop_two]
    simp only [List.head?_cons]
    decide
  rw [hb]
  simp [show asciiCaseEqList ['O', 'R'] ['O', 'R'] = true from by decide]

theorem opTok_shape (op : CompareOp) : ∃ o0 os, opTok op = o0 :: os ∧
    rustIsWhitespace o0 = false ∧ asciiCaseEqChar o0 'c' = false := by
  cases op
  · exact ⟨_, _, rfl, by decide, by decide⟩
  · exact ⟨_, _, rfl, by decide, by decide⟩
  · exact ⟨_, _, rfl, by decide, by decide⟩
  · exact ⟨_, _, rfl, by decide, by decide⟩
  · exact ⟨_, _, rfl, by decide, by decide⟩
  · exact ⟨_, _, rfl, by decide, by decide⟩

theorem parseIdentifier_print {input Z : List Char} {pos : Nat} {fld : List Char}
    (hA : AsciiL input) (hpos : pos ≤ input.length)
    (hdrop : input.drop pos = fld ++ ' ' :: Z) (hf : validField fld) :
    parseIdentifier input pos = .ok fld (pos + fld.length) := by
  obtain ⟨fc, fcs, hfe⟩ := List.exists_cons_of_ne_nil hf.1
  have hfc := hf.2 fc (by rw [hfe]; simp)
  have hdrop' : input.drop pos = fc :: (fcs ++ ' ' :: Z) := by rw [hdrop, hfe]; simp
  have hsw := skipWsAt_stop hA hpos hdrop' (identChar_not_ws hfc.1)
  have hcf : charsFrom input pos = some (fld ++ ' ' :: Z) := by
    rw [charsFrom_ascii hA pos hpos, hdrop]
  have hig : identGoL (fld ++ ' ' :: Z) = some fld.length :=
    identGoL_append hf.2 (identGoL_stop (by decide) Z)
  have hk0 : ¬fld.length = 0 := by rw [hfe]; simp
  simp only [parseIdentifier, withBoundary, hsw, hcf, hig, hk0, if_false, List.take_left]

theorem parseOperator_print {input Z : List Char} {pos : Nat} {op : CompareOp}
    (hA : AsciiL input) (hpos : pos ≤ input.length)
    (hdrop : input.drop pos = opTok op ++ ' ' :: Z) :
    parseOperator input pos = .ok op (pos + (opTok op).length) := by
  cases op with
  | Eq =>
    have hdrop' : input.drop pos = '=' :: ' ' :: Z := by simpa [opTok] using hdrop
    have hsw := skipWsAt_stop hA hpos hdrop' (by decide)
    have h1 : matchStr input pos ((">=").toList) = some (false, pos) := by
      rw [matchStr_at hA hpos, hdrop']; rfl
    have h2 : matchStr input pos (("<=").toList) = some (false, pos) := by
      rw [matchStr_at hA hpos, hdrop']; rfl
    have h3 : matchStr input pos (("!=").toList) = some (false, pos) := by
      rw [matchStr_at hA hpos, hdrop']; rfl
    have h4 := matchChar_at hA hdrop' hpos '='
    rw [if_pos rfl] at h4
    simp only [parseOperator, withBoundary, hsw, h1, h2, h3, h4]
    rfl
  | Ne =>
    have hdrop' : input.drop pos = '!' :: '=' :: ' ' :: Z := by simpa [opTok] using hdrop
    have hsw := skipWsAt_stop hA hpos hdrop' (by decide)
    have h1 : matchStr input pos ((">=").toList) = some (false, pos) := by
      rw [matchStr_at hA hpos, hdrop']; rfl
    have h2 : matchStr input pos (("<=").toList) = some (false, pos) := by
      rw [matchStr_at hA hpos, hdrop']; rfl
    have h3 : matchStr input pos (("!=").toList) =
        some (true, pos + byteLen (("!=").toList)) := by
      rw [matchStr_at hA hpos, hdrop']; rfl
    simp only [parseOperator, withBoundary, hsw, h1, h2, h3]
    rfl
  | Gt =>
    have hdrop' : input.drop pos = '>' :: ' ' :: Z := by simpa [opTok] using hdrop
    have hsw := skipWsAt_stop hA hpos hdrop' (by decide)
    have h1 : matchStr input pos ((">=").toList) = some (false, pos) := by
      rw [matchStr_at hA hpos, hdrop']; rfl
    have h2 : matchStr input pos (("<=").toList) = some (false, pos) := by
      rw [matchStr_at hA hpos, hdrop']; rfl
    have h3 : matchStr input pos (("!=").toList) = some (false, pos) := by
      rw [matchStr_at hA hpos, hdrop']; rfl
    have h4 := matchChar_at hA hdrop' hpos '='
    rw [if_neg (by decide)] at h4
    have h5 := matchChar_at hA hdrop' hpos '>'
    rw [if_pos rfl] at h5
    simp only [parseOperator, withBoundary, hsw, h1, h2, h3, h4, h5]
    rfl
  | Lt =>
    have hdrop' : input.drop pos = '<' :: ' ' :: Z := by simpa [opTok] using hdrop
    have hsw := skipWsAt_stop hA hpos hdrop' (by decide)
    have h1 : matchStr input pos ((">=").toList) = some (false, pos) := by
      rw [matchStr_at hA hpos, hdrop']; rfl
    have h2 : matchStr input pos (("<=").toList) = some (false, pos) := by
      rw [matchStr_at hA hpos, hdrop']; rfl
    have h3 : matchStr input pos (("!=").toList) = some (false, pos) := by
      rw [matchStr_at hA hpos, hdrop']; rfl
    have h4 := matchChar_at hA hdrop' hpos '='
    rw [if_neg (by decide)] at h4
    have h5 := matchChar_at hA hdrop' hpos '>'
    rw [if_neg (by decide)] at h5
    have h6 := matchChar_at hA hdrop' hpos '<'
    rw [if_pos rfl] at h6
    simp only [parseOperator, withBoundary, hsw, h1, h2, h3, h4, h5, h6]
    rfl
  | Ge =>
    have hdrop' : input.drop pos = '>' :: '=' :: ' ' :: Z := by simpa [opTok] using hdrop
    have hsw := skipWsAt_stop hA hpos hdrop' (by decide)
    have h1 : matchStr input pos ((">=").toList) =
        some (true, pos + byteLen ((">=").toList)) := by
      rw [matchStr_at hA hpos, hdrop']; rfl
    simp only [parseOperator, withBoundary, hsw, h1]
    rfl
  | Le =>
    have hdrop' : input.drop pos = '<' :: '=' :: ' ' :: Z := by simpa [opTok] using hdrop
    have hsw := skipWsAt_stop hA hpos hdrop' (by decide)
    have h1 : matchStr input pos ((">=").toList) = some (false, pos) := by
      rw [matchStr_at hA hpos, hdrop']; rfl
    have h2 : matchStr input pos (("<=").toList) =
        some (true, pos + byteLen (("<=").toList)) := by
      rw [matchStr_at hA hpos, hdrop']; rfl
    simp only [parseOperator, withBoundary, hsw, h1, h2]
    rfl

theorem parseValue_digits {input rest : List Char} {pos : Nat} {n : Nat}
    (hA : AsciiL input) (hpos : pos ≤ input.length)
    (hdrop : input.drop pos = natDigits n ++ rest)
    (hrest : rest = [] ∨ ∃ r2, rest = ' ' :: r2) :
    parseValue input pos = .ok (.number ⟨(n : Int), 0⟩) (pos + (natDigits n).length) := by
  have hND := natDigits_eq_natRepr n
  have hdig : ∀ c ∈ natDigits n, isDigitChar c = true := by
    rw [hND]; exact natRepr_digits n
  have hne : natDigits n ≠ [] := by rw [hND]; exact natRepr_ne_nil n
  obtain ⟨d0, ds, hde⟩ := List.exists_cons_of_ne_nil hne
  have hd0 : isDigitChar d0 = true := hdig d0 (by rw [hde]; simp)
  have hdrop' : input.drop pos = d0 :: (ds ++ rest) := by rw [hdrop, hde]; simp
  have hsw := skipWsAt_stop hA hpos hdrop' (tokChar_not_ws (digit_tokChar hd0))
  have hquote := matchChar_at hA hdrop' hpos '"'
  rw [if_neg (ne_of_class hd0 (by decide))] at hquote
  have htrue : matchKeyword input pos (("true").toList) = some (false, pos) :=
    matchKeyword_head_ne hA (by unfold AsciiL; decide) hpos hdrop'
      (asciiCaseEqChar_digit hd0 (by decide))
  have hfalse : matchKeyword input pos (("false").toList) = some (false, pos) :=
    matchKeyword_head_ne hA (by unfold AsciiL; decide) hpos hdrop'
      (asciiCaseEqChar_digit hd0 (by decide))
  have hnum : numGoL rest = some 0 := by
    rcases hrest with rfl | ⟨r2, rfl⟩
    · rfl
    · exact numGoL_stop (by decide) r2
  have hpnd := parseNumberOrDate_at hA hpos hdrop
    (fun c hc => digit_tokChar (hdig c hc)) hne hnum
  have htpd : tryParseDate (natDigits n) = none := by
    have hsp := splitOnChar_no_sep (fun x hx => digit_ne_dash (hdig x hx))
    simp [tryParseDate, hsp]
  have hpsf := parseSimpleFloat_digits hne hdig
  have hdv : digitsValue (natDigits n) = n := by rw [hND]; exact digitsValue_natRepr n
  rw [hdv] at hpsf
  have hnotdash : ¬natDigits n = ['-'] := by
    rw [hde]
    intro h
    injection h with h1 h2
    rw [h1] at hd0
    exact absurd hd0 (by decide)
  rw [htpd, if_neg hnotdash, hpsf] at hpnd
  simp only [parseValue, withBoundary, hsw, hquote, htrue, hfalse, hpnd]
  rfl

theorem parsePrimaryField_print {input rest : List Char} {pos : Nat} {p : SPrim}
    (hA : AsciiL input) (hpos : pos ≤ input.length)
    (hdrop : input.drop pos = printPrim p ++ rest)
    (hf : validField p.field)
    (hrest : rest = [] ∨ ∃ r2, rest = ' ' :: r2) :
    parsePrimaryField input pos = .ok (toExpr p) (pos + (printPrim p).length) := by
  obtain ⟨o0, os, hop, hopws, hopc⟩ := opTok_shape p.op
  have hDne : natDigits p.num ≠ [] := by
    rw [natDigits_eq_natRepr]; exact natRepr_ne_nil p.num
  obtain ⟨d0, ds, hde⟩ := List.exists_cons_of_ne_nil hDne
  have hd0 : isDigitChar d0 = true := by
    have h := natRepr_digits p.num d0
    rw [← natDigits_eq_natRepr] at h
    exact h (by rw [hde]; simp)
  have hlen : pos + (printPrim p).length + rest.length ≤ input.length := by
    have h := congrArg List.length hdrop
    rw [List.length_drop, List.length_append] at h
    omega
  have hPP : (printPrim p).length =
      p.field.length + (1 + ((opTok p.op).length + (1 + (natDigits p.num).length))) := by
    simp [printPrim]
    omega
  have hv0 : input.drop pos =
      p.field ++ ' ' :: (opTok p.op ++ ' ' :: (natDigits p.num ++ rest)) := by
    rw [hdrop]; simp [printPrim]
  have hv1 : input.drop (pos + p.field.length) =
      ' ' :: (opTok p.op ++ ' ' :: (natDigits p.num ++ rest)) :=
    drop_of_append _ hv0 rfl
  have hv2 : input.drop (pos + p.field.length + 1) =
      opTok p.op ++ ' ' :: (natDigits p.num ++ rest) :=
    drop_of_append _ (X := [' ']) hv1 rfl
  have hv3 : input.drop (pos + p.field.length + 1 + (opTok p.op).length) =
      ' ' :: (natDigits p.num ++ rest) :=
    drop_of_append _ hv2 rfl
  have hv4 : input.drop (pos + p.field.length + 1 + (opTok p.op).length + 1) =
      natDigits p.num ++ rest :=
    drop_of_append _ (X := [' ']) hv3 rfl
  have hb1 : pos + p.field.length ≤ input.length := by omega
  have hb2 : pos + p.field.length + 1 ≤ input.length := by omega
  have hb3 : pos + p.field.length + 1 + (opTok p.op).length ≤ input.length := by omega
  have hb4 : pos + p.field.length + 1 + (opTok p.op).length + 1 ≤ input.length := by
    omega
  have hid : parseIdentifier input pos = .ok p.field (pos + p.field.length) :=
    parseIdentifier_print hA hpos hv0 hf
  have hsw1 : skipWsAt input (pos + p.field.length) =
      some (pos + p.field.length + 1) := by
    have hv1h : input.drop (pos + p.field.length) =
        ' ' :: o0 :: (os ++ ' ' :: (natDigits p.num ++ rest)) := by
      rw [hv1, hop]; simp
    exact skipWsAt_space hA hb1 hv1h hopws
  have hcont : matchKeyword input (pos + p.field.length + 1) (("contains").toList) =
      some (false, pos + p.field.length + 1) := by
    have hv2h : input.drop (pos + p.field.length + 1) =
        o0 :: (os ++ ' ' :: (natDigits p.num ++ rest)) := by
      rw [hv2, hop]; simp
    exact matchKeyword_head_ne hA (by unfold AsciiL; decide) hb2 hv2h hopc
  have hopr : parseOperator input (pos + p.field.length + 1) =
      .ok p.op (pos + p.field.length + 1 + (opTok p.op).length) :=
    parseOperator_print hA hb2 hv2
  have hsw3 : skipWsAt input (pos + p.field.length + 1 + (opTok p.op).length) =
      some (pos + p.field.length + 1 + (opTok p.op).length + 1) := by
    have hv3h : input.drop (pos + p.field.length + 1 + (opTok p.op).length) =
        ' ' :: d0 :: (ds ++ rest) := by
      rw [hv3, hde]; simp
    exact skipWsAt_space hA hb3 hv3h (tokChar_not_ws (digit_tokChar hd0))
  have hval : parseValue input (pos + p.field.length + 1 + (opTok p.op).length + 1) =
      .ok (.number ⟨(p.num : Int), 0⟩)
        (pos + p.field.length + 1 + (opTok p.op).length + 1 +
          (natDigits p.num).length) :=
    parseValue_digits hA hb4 hv4 hrest
  have hfin : pos + p.field.length + 1 + (opTok p.op).length + 1 +
      (natDigits p.num).length = pos + (printPrim p).length := by omega
  simp only [parsePrimaryField, POut.bind, withBoundary, hid, hsw1, hcont, hopr,
    hsw3, hval]
  rw [hfin]
  rfl

theorem parsePrimary_print {input rest sp : List Char} {pos : Nat} {p : SPrim} (f : Nat)
    (hA : AsciiL input) (hpos : pos ≤ input.length)
    (hsp : sp = [] ∨ sp = [' '])
    (hdrop : input.drop pos = sp ++ (printPrim p ++ rest))
    (hf : validField p.field)
    (hrest : rest = [] ∨ ∃ r2, rest = ' ' :: r2) :
    parsePrimary (f + 1) input pos =
      .ok (toExpr p) (pos + sp.length + (printPrim p).length) := by
  obtain ⟨fc, fcs, hfe⟩ := List.exists_cons_of_ne_nil hf.1
  have hfc := hf.2 fc (by rw [hfe]; simp)
  rcases hsp with rfl | rfl
  · simp only [List.nil_append] at hdrop
    simp only [List.length_nil, Nat.add_zero]
    have hdh : input.drop pos =
        fc :: (fcs ++ ' ' :: (opTok p.op ++ ' ' :: (natDigits p.num ++ rest))) := by
      rw [hdrop]; simp [printPrim, hfe]
    have hsw := skipWsAt_stop hA hpos hdh (identChar_not_ws hfc.1)
    have hmc := matchChar_at hA hdh hpos '('
    rw [if_neg (ne_of_class hfc.1 (by decide))] at hmc
    have hfld := parsePrimaryField_print hA hpos hdrop hf hrest
    simp only [parsePrimary, hsw, hmc, hfld]
  · simp only [List.length_cons, List.length_nil, Nat.zero_add]
    have hdh : input.drop pos = ' ' ::
        (fc :: (fcs ++ ' ' :: (opTok p.op ++ ' ' :: (natDigits p.num ++ rest)))) := by
      rw [hdrop]; simp [printPrim, hfe]
    have hsw := skipWsAt_space hA hpos hdh (identChar_not_ws hfc.1)
    have hpos1 : pos + 1 ≤ input.length := by
      have h := congrArg List.length hdh
      rw [List.length_drop] at h
      simp only [List.length_cons] at h
      omega
    have hd1 : input.drop (pos + 1) =
        fc :: (fcs ++ ' ' :: (opTok p.op ++ ' ' :: (natDigits p.num ++ rest))) :=
      drop_of_append _ (X := [' ']) (by rw [hdh]; rfl) rfl
    have hd1pp : input.drop (pos + 1) = printPrim p ++ rest := by
      rw [hd1]; simp [printPrim, hfe]
    have hmc := matchChar_at hA hd1 hpos1 '('
    rw [if_neg (ne_of_class hfc.1 (by decide))] at hmc
    have hfld := parsePrimaryField_print hA hpos1 hd1pp hf hrest
    simp only [parsePrimary, hsw, hmc, hfld]

theorem parseAndGo_stop_nil {input : List Char} {pos : Nat} {left : Expr} {f : Nat}
    (hA : AsciiL input) (hpos : pos ≤ input.length) (hdrop : input.drop pos = []) :
    parseAndGo (f + 1) input left pos = .ok left pos := by
  have hsw := skipWsAt_end hA hpos hdrop
  have hkw : matchKeyword input pos (("AND").toList) = some (false, pos) :=
    matchKeyword_nil_false hA (by unfold AsciiL; decide) hpos hdrop
  simp only [parseAndGo, hsw, hkw]

theorem parseOrGo_stop_nil {input : List Char} {pos : Nat} {left : Expr} {f : Nat}
    (hA : AsciiL input) (hpos : pos ≤ input.length) (hdrop : input.drop pos = []) :
    parseOrGo (f + 1) input left pos = .ok left pos := by
  have hsw := skipWsAt_end hA hpos hdrop
  have hkw : matchKeyword input pos (("OR").toList) = some (false, pos) :=
    matchKeyword_nil_false hA (by unfold AsciiL; decide) hpos hdrop
  simp only [parseOrGo, hsw, hkw]

theorem parseAndGo_stop_or {input Z : List Char} {pos : Nat} {left : Expr} {f : Nat}
    (hA : AsciiL input) (hpos : pos ≤ input.length)
    (hdrop : input.drop pos = ' ' :: 'O' :: 'R' :: Z) :
    parseAndGo (f + 1) input left pos = .ok left (pos + 1) := by
  have hsw := skipWsAt_space hA hpos hdrop (by decide)
  have hpos1 : pos + 1 ≤ input.length := by
    have h := congrArg List.length hdrop
    rw [List.length_drop] at h
    simp only [List.length_cons] at h
    omega
  have hd1 : input.drop (pos + 1) = 'O' :: 'R' :: Z :=
    drop_of_append _ (X := [' ']) (by rw [hdrop]; rfl) rfl
  have hkw : matchKeyword input (pos + 1) (("AND").toList) = some (false, pos + 1) :=
    matchKeyword_head_ne hA (by unfold AsciiL; decide) hpos1 hd1 (by decide)
  simp only [parseAndGo, hsw, hkw]

theorem parseAndGo_step {input Z : List Char} {pos : Nat} {left : Expr} {f : Nat}
    (hA : AsciiL input) (hpos : pos ≤ input.length)
    (hdrop : input.drop pos = ' ' :: 'A' :: 'N' :: 'D' :: ' ' :: Z) :
    parseAndGo (f + 1) input left pos =
      POut.bind (parsePrimary f input (pos + 4))
        (fun right p2 => parseAndGo f input (.and left right) p2) := by
  have hsw := skipWsAt_space hA hpos hdrop (by decide)
  have hpos1 : pos + 1 ≤ input.length := by
    have h := congrArg List.length hdrop
    rw [List.length_drop] at h
    simp only [List.length_cons] at h
    omega
  have hd1 : input.drop (pos + 1) = 'A' :: 'N' :: 'D' :: ' ' :: Z :=
    drop_of_append _ (X := [' ']) (by rw [hdrop]; rfl) rfl
  have hkw := matchKeyword_AND hA hpos1 hd1
  have h4 : pos + 1 + 3 = pos + 4 := by omega
  rw [h4] at hkw
  simp only [parseAndGo, hsw, hkw]
  cases parsePrimary f input (pos + 4) <;> rfl

theorem parseOrGo_step {input Z : List Char} {pos : Nat} {left : Expr} {f : Nat}
    (hA : AsciiL input) (hpos : pos ≤ input.length)
    (hdrop : input.drop pos = 'O' :: 'R' :: ' ' :: Z) :
    parseOrGo (f + 1) input left pos =
      POut.bind (parseAnd f input (pos + 2))
        (fun right p2 => parseOrGo f input (.or left right) p2) := by
  have hsw := skipWsAt_stop hA hpos hdrop (by decide)
  have hkw := matchKeyword_OR hA hpos hdrop
  simp only [parseOrGo, hsw, hkw]
  cases parseAnd f input (pos + 2) <;> rfl

theorem parseOr_bind (f : Nat) (input : List Char) (pos : Nat) :
    parseOr (f + 1) input pos =
      POut.bind (parseAnd f input pos) (fun left p => parseOrGo f input left p) := by
  simp only [parseOr]
  cases parseAnd f input pos <;> rfl

theorem parseAnd_bind (f : Nat) (input : List Char) (pos : Nat) :
    parseAnd (f + 1) input pos =
      POut.bind (parsePrimary f input pos) (fun left p => parseAndGo f input left p) := by
  simp only [parseAnd]
  cases parsePrimary f input pos <;> rfl

theorem asciiL_cons {c : Char} {l : List Char} (hc : c.toNat < 128) (hl : AsciiL l) :
    AsciiL (c :: l) := by
  intro x hx
  rcases List.mem_cons.mp hx with rfl | hx
  · exact hc
  · exact hl x hx

theorem printPrim_ascii {p : SPrim} (hf : validField p.field) : AsciiL (printPrim p) := by
  intro c hc
  simp only [printPrim, List.mem_append, List.mem_cons] at hc
  rcases hc with hc | rfl | hc | rfl | hc
  · exact (hf.2 c hc).2
  · decide
  · have hall : ∀ x ∈ opTok p.op, x.toNat < 128 := by
      cases p.op <;> decide
    exact hall c hc
  · decide
  · have hd : isDigitChar c = true := by
      rw [natDigits_eq_natRepr] at hc
      exact natRepr_digits p.num c hc
    exact digit_ascii hd

theorem parseOr_scenario_or_and {p1 p2 p3 : SPrim} {input : List Char} (g : Nat)
    (h1 : validField p1.field) (h2 : validField p2.field) (h3 : validField p3.field)
    (hin : input = printPrim p1 ++ (' ' :: 'O' :: 'R' :: ' ' ::
      (printPrim p2 ++ (' ' :: 'A' :: 'N' :: 'D' :: ' ' :: printPrim p3)))) :
    parseOr (g + 1 + 1 + 1 + 1 + 1) input 0 =
      .ok (.or (toExpr p1) (.and (toExpr p2) (toExpr p3))) input.length := by
  have hA : AsciiL input := by
    rw [hin]
    refine asciiL_append (printPrim_ascii h1) ?_
    refine asciiL_cons (by decide) (asciiL_cons (by decide) (asciiL_cons (by decide)
      (asciiL_cons (by decide) ?_)))
    refine asciiL_append (printPrim_ascii h2) ?_
    exact asciiL_cons (by decide) (asciiL_cons (by decide) (asciiL_cons (by decide)
      (asciiL_cons (by decide) (asciiL_cons (by decide) (printPrim_ascii h3)))))
  have hL : input.length = (printPrim p1).length + 4 + ((printPrim p2).length +
      (5 + (printPrim p3).length)) := by
    rw [hin]
    simp only [List.length_append, List.length_cons]
    omega
  have hd0 : input.drop 0 = [] ++ (printPrim p1 ++ (' ' :: 'O' :: 'R' :: ' ' ::
      (printPrim p2 ++ (' ' :: 'A' :: 'N' :: 'D' :: ' ' :: printPrim p3)))) := by
    rw [List.drop_zero, hin]
    simp only [List.nil_append]
  have hdA1 : input.drop ((printPrim p1).length) = ' ' :: 'O' :: 'R' :: ' ' ::
      (printPrim p2 ++ (' ' :: 'A' :: 'N' :: 'D' :: ' ' :: printPrim p3)) := by
    refine drop_of_append 0 (X := printPrim p1) ?_ (by omega)
    rw [List.drop_zero, hin]
  have hdOR : input.drop ((printPrim p1).length + 1) = 'O' :: 'R' :: ' ' ::
      (printPrim p2 ++ (' ' :: 'A' :: 'N' :: 'D' :: ' ' :: printPrim p3)) := by
    refine drop_of_append 0 (X := printPrim p1 ++ [' ']) ?_ ?_
    · rw [List.drop_zero, hin]
      simp only [List.append_assoc, List.cons_append, List.nil_append]
    · simp only [List.length_append, List.length_cons, List.length_nil]
      omega
  have hdP2 : input.drop ((printPrim p1).length + 1 + 2) = [' '] ++
      (printPrim p2 ++ (' ' :: 'A' :: 'N' :: 'D' :: ' ' :: printPrim p3)) := by
    refine drop_of_append 0 (X := printPrim p1 ++ [' ', 'O', 'R']) ?_ ?_
    · rw [List.drop_zero, hin]
      simp only [List.append_assoc, List.cons_append, List.nil_append]
    · simp only [List.length_append, List.length_cons, List.length_nil]
      omega
  have hdAND : input.drop ((printPrim p1).length + 1 + 2 + 1 + (printPrim p2).length) =
      ' ' :: 'A' :: 'N' :: 'D' :: ' ' :: printPrim p3 := by
    refine drop_of_append 0 (X := (printPrim p1 ++ [' ', 'O', 'R', ' ']) ++ printPrim p2)
      ?_ ?_
    · rw [List.drop_zero, hin]
      simp only [List.append_assoc, List.cons_append, List.nil_append]
    · simp only [List.length_append, List.length_cons, List.length_nil]
      omega
  have hdP3 : input.drop ((printPrim p1).length + 1 + 2 + 1 + (printPrim p2).length + 4)
      = [' '] ++ (printPrim p3 ++ []) := by
    refine drop_of_append 0 (X := ((printPrim p1 ++ [' ', 'O', 'R', ' ']) ++ printPrim p2)
      ++ [' ', 'A', 'N', 'D']) ?_ ?_
    · rw [List.drop_zero, hin]
      simp only [List.append_assoc, List.cons_append, List.nil_append, List.append_nil]
    · simp only [List.length_append, List.length_cons, List.length_nil]
      omega
  have hb0 : (0 : Nat) ≤ input.length := Nat.zero_le _
  have hbA1 : (printPrim p1).length ≤ input.length := by omega
  have hbOR : (printPrim p1).length + 1 ≤ input.length := by omega
  have hbP2 : (printPrim p1).length + 1 + 2 ≤ input.length := by omega
  have hbAND : (printPrim p1).length + 1 + 2 + 1 + (printPrim p2).length ≤
      input.length := by omega
  have hbP3 : (printPrim p1).length + 1 + 2 + 1 + (printPrim p2).length + 4 ≤
      input.length := by omega
  have hp1 := parsePrimary_print (g + 1 + 1) hA hb0 (Or.inl rfl) hd0 h1 (Or.inr ⟨_, rfl⟩)
  simp only [List.length_nil, List.length_cons, Nat.add_zero, Nat.zero_add] at hp1
  have hp2 := parsePrimary_print (g + 1) hA hbP2 (Or.inr rfl) hdP2 h2 (Or.inr ⟨_, rfl⟩)
  simp only [List.length_nil, List.length_cons, Nat.add_zero, Nat.zero_add] at hp2
  have hp3 := parsePrimary_print g hA hbP3 (Or.inr rfl) hdP3 h3 (Or.inl rfl)
  simp only [List.length_nil, List.length_cons, Nat.add_zero, Nat.zero_add] at hp3
  rw [show (printPrim p1).length + 1 + 2 + 1 + (printPrim p2).length + 4 + 1 +
      (printPrim p3).length = input.length from by omega] at hp3
  rw [parseOr_bind, parseAnd_bind, hp1]
  simp only [POut.bind]
  rw [parseAndGo_stop_or hA hbA1 hdA1]
  simp only [POut.bind]
  rw [parseOrGo_step hA hbOR hdOR, parseAnd_bind, hp2]
  simp only [POut.bind]
  rw [parseAndGo_step hA hbAND hdAND, hp3]
  simp only [POut.bind]
  rw [parseAndGo_stop_nil hA le_rfl (List.drop_length input)]
  simp only [POut.bind]
  rw [parseOrGo_stop_nil hA le_rfl (List.drop_length input)]

theorem parseOr_scenario_or_or {p1 p2 p3 : SPrim} {input : List Char} (g : Nat)
    (h1 : validField p1.field) (h2 : validField p2.field) (h3 : validField p3.field)
    (hin : input = printPrim p1 ++ (' ' :: 'O' :: 'R' :: ' ' ::
      (printPrim p2 ++ (' ' :: 'O' :: 'R' :: ' ' :: printPrim p3)))) :
    parseOr (g + 1 + 1 + 1 + 1 + 1) input 0 =
      .ok (.or (.or (toExpr p1) (toExpr p2)) (toExpr p3)) input.length := by
  have hA : AsciiL input := by
    rw [hin]
    refine asciiL_append (printPrim_ascii h1) ?_
    refine asciiL_cons (by decide) (asciiL_cons (by decide) (asciiL_cons (by decide)
      (asciiL_cons (by decide) ?_)))
    refine asciiL_append (printPrim_ascii h2) ?_
    exact asciiL_cons (by decide) (asciiL_cons (by decide) (asciiL_cons (by decide)
      (asciiL_cons (by decide) (printPrim_ascii h3))))
  have hL : input.length = (printPrim p1).length + 4 + ((printPrim p2).length +
      (4 + (printPrim p3).length)) := by
    rw [hin]
    simp only [List.length_append, List.length_cons]
    omega
  have hd0 : input.drop 0 = [] ++ (printPrim p1 ++ (' ' :: 'O' :: 'R' :: ' ' ::
      (printPrim p2 ++ (' ' :: 'O' :: 'R' :: ' ' :: printPrim p3)))) := by
    rw [List.drop_zero, hin]
    simp only [List.nil_append]
  have hdA1 : input.drop ((printPrim p1).length) = ' ' :: 'O' :: 'R' :: ' ' ::
      (printPrim p2 ++ (' ' :: 'O' :: 'R' :: ' ' :: printPrim p3)) := by
    refine drop_of_append 0 (X := printPrim p1) ?_ (by omega)
    rw [List.drop_zero, hin]
  have hdOR : input.drop ((printPrim p1).length + 1) = 'O' :: 'R' :: ' ' ::
      (printPrim p2 ++ (' ' :: 'O' :: 'R' :: ' ' :: printPrim p3)) := by
    refine drop_of_append 0 (X := printPrim p1 ++ [' ']) ?_ ?_
    · rw [List.drop_zero, hin]
      simp only [List.append_assoc, List.cons_append, List.nil_append]
    · simp only [List.length_append, List.length_cons, List.length_nil]
      omega
  have hdP2 : input.drop ((printPrim p1).length + 1 + 2) = [' '] ++
      (printPrim p2 ++ (' ' :: 'O' :: 'R' :: ' ' :: printPrim p3)) := by
    refine drop_of_append 0 (X := printPrim p1 ++ [' ', 'O', 'R']) ?_ ?_
    · rw [List.drop_zero, hin]
      simp only [List.append_assoc, List.cons_append, List.nil_append]
    · simp only [List.length_append, List.length_cons, List.length_nil]
      omega
  have hdOR2 : input.drop ((printPrim p1).length + 1 + 2 + 1 + (printPrim p2).length) =
      ' ' :: 'O' :: 'R' :: ' ' :: printPrim p3 := by
    refine drop_of_append 0 (X := (printPrim p1 ++ [' ', 'O', 'R', ' ']) ++ printPrim p2)
      ?_ ?_
    · rw [List.drop_zero, hin]
      simp only [List.append_assoc, List.cons_append, List.nil_append]
    · simp only [List.length_append, List.length_cons, List.length_nil]
      omega
  have hdOR2b : input.drop ((printPrim p1).length + 1 + 2 + 1 + (printPrim p2).length
      + 1) = 'O' :: 'R' :: ' ' :: printPrim p3 := by
    refine drop_of_append 0
      (X := ((printPrim p1 ++ [' ', 'O', 'R', ' ']) ++ printPrim p2) ++ [' ']) ?_ ?_
    · rw [List.drop_zero, hin]
      simp only [List.append_assoc, List.cons_append, List.nil_append]
    · simp only [List.length_append, List.length_cons, List.length_nil]
      omega
  have hdP3 : input.drop ((printPrim p1).length + 1 + 2 + 1 + (printPrim p2).length
      + 1 + 2) = [' '] ++ (printPrim p3 ++ []) := by
    refine drop_of_append 0
      (X := ((printPrim p1 ++ [' ', 'O', 'R', ' ']) ++ printPrim p2) ++ [' ', 'O', 'R'])
      ?_ ?_
    · rw [List.drop_zero, hin]
      simp only [List.append_assoc, List.cons_append, List.nil_append, List.append_nil]
    · simp only [List.length_append, List.length_cons, List.length_nil]
      omega
  have hb0 : (0 : Nat) ≤ input.length := Nat.zero_le _
  have hbA1 : (printPrim p1).length ≤ input.length := by omega
  have hbOR : (printPrim p1).length + 1 ≤ input.length := by omega
  have hbP2 : (printPrim p1).length + 1 + 2 ≤ input.length := by omega
  have hbOR2 : (printPrim p1).length + 1 + 2 + 1 + (printPrim p2).length ≤
      input.length := by omega
  have hbOR2b : (printPrim p1).length + 1 + 2 + 1 + (printPrim p2).length + 1 ≤
      input.length := by omega
  have hbP3 : (printPrim p1).length + 1 + 2 + 1 + (printPrim p2).length + 1 + 2 ≤
      input.length := by omega
  have hp1 := parsePrimary_print (g + 1 + 1) hA hb0 (Or.inl rfl) hd0 h1 (Or.inr ⟨_, rfl⟩)
  simp only [List.length_nil, List.length_cons, Nat.add_zero, Nat.zero_add] at hp1
  have hp2 := parsePrimary_print (g + 1) hA hbP2 (Or.inr rfl) hdP2 h2 (Or.inr ⟨_, rfl⟩)
  simp only [List.length_nil, List.length_cons, Nat.add_zero, Nat.zero_add] at hp2
  have hp3 := parsePrimary_print g hA hbP3 (Or.inr rfl) hdP3 h3 (Or.inl rfl)
  simp only [List.length_nil, List.length_cons, Nat.add_zero, Nat.zero_add] at hp3
  rw [show (printPrim p1).length + 1 + 2 + 1 + (printPrim p2).length + 1 + 2 + 1 +
      (printPrim p3).length = input.length from by omega] at hp3
  rw [parseOr_bind, parseAnd_bind, hp1]
  simp only [POut.bind]
  rw [parseAndGo_stop_or hA hbA1 hdA1]
  simp only [POut.bind]
  rw [parseOrGo_step hA hbOR hdOR, parseAnd_bind, hp2]
  simp only [POut.bind]
  rw [parseAndGo_stop_or hA hbOR2 hdOR2]
  simp only [POut.bind]
  rw [parseOrGo_step hA hbOR2b hdOR2b, parseAnd_bind, hp3]
  simp only [POut.bind]
  rw [parseAndGo_stop_nil hA le_rfl (List.drop_length input)]
  simp only [POut.bind]
  rw [parseOrGo_stop_nil hA le_rfl (List.drop_length input)]

theorem parseOr_scenario_and_and {p1 p2 p3 : SPrim} {input : List Char} (g : Nat)
    (h1 : validField p1.field) (h2 : validField p2.field) (h3 : validField p3.field)
    (hin : input = printPrim p1 ++ (' ' :: 'A' :: 'N' :: 'D' :: ' ' ::
      (printPrim p2 ++ (' ' :: 'A' :: 'N' :: 'D' :: ' ' :: printPrim p3)))) :
    parseOr (g + 1 + 1 + 1 + 1 + 1) input 0 =
      .ok (.and (.and (toExpr p1) (toExpr p2)) (toExpr p3)) input.length := by
  have hA : AsciiL input := by
    rw [hin]
    refine asciiL_append (printPrim_ascii h1) ?_
    refine asciiL_cons (by decide) (asciiL_cons (by decide) (asciiL_cons (by decide)
      (asciiL_cons (by decide) (asciiL_cons (by decide) ?_))))
    refine asciiL_append (printPrim_ascii h2) ?_
    exact asciiL_cons (by decide) (asciiL_cons (by decide) (asciiL_cons (by decide)
      (asciiL_cons (by decide) (asciiL_cons (by decide) (printPrim_ascii h3)))))
  have hL : input.length = (printPrim p1).length + 5 + ((printPrim p2).length +
      (5 + (printPrim p3).length)) := by
    rw [hin]
    simp only [List.length_append, List.length_cons]
    omega
  have hd0 : input.drop 0 = [] ++ (printPrim p1 ++ (' ' :: 'A' :: 'N' :: 'D' :: ' ' ::
      (printPrim p2 ++ (' ' :: 'A' :: 'N' :: 'D' :: ' ' :: printPrim p3)))) := by
    rw [List.drop_zero, hin]
    simp only [List.nil_append]
  have hdAND1 : input.drop ((printPrim p1).length) = ' ' :: 'A' :: 'N' :: 'D' :: ' ' ::
      (printPrim p2 ++ (' ' :: 'A' :: 'N' :: 'D' :: ' ' :: printPrim p3)) := by
    refine drop_of_append 0 (X := printPrim p1) ?_ (by omega)
    rw [List.drop_zero, hin]
  have hdP2 : input.drop ((printPrim p1).length + 4) = [' '] ++
      (printPrim p2 ++ (' ' :: 'A' :: 'N' :: 'D' :: ' ' :: printPrim p3)) := by
    refine drop_of_append 0 (X := printPrim p1 ++ [' ', 'A', 'N', 'D']) ?_ ?_
    · rw [List.drop_zero, hin]
      simp only [List.append_assoc, List.cons_append, List.nil_append]
    · simp only [List.length_append, List.length_cons, List.length_nil]
      omega
  have hdAND2 : input.drop ((printPrim p1).length + 4 + 1 + (printPrim p2).length) =
      ' ' :: 'A' :: 'N' :: 'D' :: ' ' :: printPrim p3 := by
    refine drop_of_append 0
      (X := (printPrim p1 ++ [' ', 'A', 'N', 'D', ' ']) ++ printPrim p2) ?_ ?_
    · rw [List.drop_zero, hin]
      simp only [List.append_assoc, List.cons_append, List.nil_append]
    · simp only [List.length_append, List.length_cons, List.length_nil]
      omega
  have hdP3 : input.drop ((printPrim p1).length + 4 + 1 + (printPrim p2).length + 4) =
      [' '] ++ (printPrim p3 ++ []) := by
    refine drop_of_append 0
      (X := ((printPrim p1 ++ [' ', 'A', 'N', 'D', ' ']) ++ printPrim p2) ++
        [' ', 'A', 'N', 'D']) ?_ ?_
    · rw [List.drop_zero, hin]
      simp only [List.append_assoc, List.cons_append, List.nil_append, List.append_nil]
    · simp only [List.length_append, List.length_cons, List.length_nil]
      omega
  have hb0 : (0 : Nat) ≤ input.length := Nat.zero_le _
  have hbA1 : (printPrim p1).length ≤ input.length := by omega
  have hbP2 : (printPrim p1).length + 4 ≤ input.length := by omega
  have hbAND2 : (printPrim p1).length + 4 + 1 + (printPrim p2).length ≤
      input.length := by omega
  have hbP3 : (printPrim p1).length + 4 + 1 + (printPrim p2).length + 4 ≤
      input.length := by omega
  have hp1 := parsePrimary_print (g + 1 + 1) hA hb0 (Or.inl rfl) hd0 h1 (Or.inr ⟨_, rfl⟩)
  simp only [List.length_nil, List.length_cons, Nat.add_zero, Nat.zero_add] at hp1
  have hp2 := parsePrimary_print (g + 1) hA hbP2 (Or.inr rfl) hdP2 h2 (Or.inr ⟨_, rfl⟩)
  simp only [List.length_nil, List.length_cons, Nat.add_zero, Nat.zero_add] at hp2
  have hp3 := parsePrimary_print g hA hbP3 (Or.inr rfl) hdP3 h3 (Or.inl rfl)
  simp only [List.length_nil, List.length_cons, Nat.add_zero, Nat.zero_add] at hp3
  rw [show (printPrim p1).length + 4 + 1 + (printPrim p2).length + 4 + 1 +
      (printPrim p3).length = input.length from by omega] at hp3
  rw [parseOr_bind, parseAnd_bind, hp1]
  simp only [POut.bind]
  rw [parseAndGo_step hA hbA1 hdAND1, hp2]
  simp only [POut.bind]
  rw [parseAndGo_step hA hbAND2 hdAND2, hp3]
  simp only [POut.bind]
  rw [parseAndGo_stop_nil hA le_rfl (List.drop_length input)]
  simp only [POut.bind]
  rw [parseOrGo_stop_nil hA le_rfl (List.drop_length input)]

theorem prim3_ascii {p1 p2 p3 : SPrim} {m1 m2 : List Char}
    (h1 : validField p1.field) (h2 : validField p2.field) (h3 : validField p3.field)
    (hm1 : AsciiL m1) (hm2 : AsciiL m2) :
    AsciiL (printPrim p1 ++ m1 ++ printPrim p2 ++ m2 ++ printPrim p3) :=
  asciiL_append (asciiL_append (asciiL_append (asciiL_append (printPrim_ascii h1) hm1)
    (printPrim_ascii h2)) hm2) (printPrim_ascii h3)

theorem parse_of_parseOr {input : List Char} {e : Expr}
    (hA : AsciiL input)
    (h : parseOr (5 * byteLen input + 10) input 0 = .ok e input.length) :
    parse input = .ok e input.length := by
  unfold parse
  rw [h]
  simp only [POut.bind]
  rw [skipWsAt_end hA le_rfl (List.drop_length input)]
  simp only [withBoundary]
  rw [byteLen_ascii hA, if_neg (lt_irrefl _)]

/-- C5: operator precedence and associativity: `AND` binds tighter than
`OR`, and both fold left-associatively.  For any three well-formed simple
primaries `p1`, `p2`, `p3` (printed as `field op number`),
`p1 OR p2 AND p3` parses as `Or(p1, And(p2, p3))` — not `And(Or(p1,p2),p3)`
— while `p1 OR p2 OR p3` parses as `Or(Or(p1, p2), p3)` and
`p1 AND p2 AND p3` parses as `And(And(p1, p2), p3)`. -/
theorem C5_precedence_and_associativity :
    (∀ p1 p2 p3 : SPrim, validField p1.field → validField p2.field →
      validField p3.field →
      (parse (printPrim p1 ++ (" OR ").toList ++ printPrim p2 ++ (" AND ").toList ++
        printPrim p3)).okVal =
        some (.or (toExpr p1) (.and (toExpr p2) (toExpr p3)))) ∧
    (∀ p1 p2 p3 : SPrim, validField p1.field → validField p2.field →
      validField p3.field →
      (parse (printPrim p1 ++ (" OR ").toList ++ printPrim p2 ++ (" OR ").toList ++
        printPrim p3)).okVal =
        some (.or (.or (toExpr p1) (toExpr p2)) (toExpr p3))) ∧
    (∀ p1 p2 p3 : SPrim, validField p1.field → validField p2.field →
      validField p3.field →
      (parse (printPrim p1 ++ (" AND ").toList ++ printPrim p2 ++ (" AND ").toList ++
        printPrim p3)).okVal =
        some (.and (.and (toExpr p1) (toExpr p2)) (toExpr p3))) := by
  refine ⟨?_, ?_, ?_⟩
  · intro p1 p2 p3 h1 h2 h3
    have hA := prim3_ascii h1 h2 h3
      (show AsciiL ((" OR ").toList) by unfold AsciiL; decide)
      (show AsciiL ((" AND ").toList) by unfold AsciiL; decide)
    have hin : printPrim p1 ++ (" OR ").toList ++ printPrim p2 ++ (" AND ").toList ++
        printPrim p3 = printPrim p1 ++ (' ' :: 'O' :: 'R' :: ' ' ::
        (printPrim p2 ++ (' ' :: 'A' :: 'N' :: 'D' :: ' ' :: printPrim p3))) := by
      rw [show ((" OR ").toList) = [' ', 'O', 'R', ' '] from rfl,
        show ((" AND ").toList) = [' ', 'A', 'N', 'D', ' '] from rfl]
      simp [List.append_assoc]
    obtain ⟨m, hm⟩ : ∃ m, 5 * byteLen (printPrim p1 ++ (" OR ").toList ++ printPrim p2
        ++ (" AND ").toList ++ printPrim p3) + 10 = m + 1 + 1 + 1 + 1 + 1 :=
      ⟨5 * byteLen (printPrim p1 ++ (" OR ").toList ++ printPrim p2 ++
        (" AND ").toList ++ printPrim p3) + 5, by omega⟩
    have hOR := parseOr_scenario_or_and m h1 h2 h3 hin
    have hp := parse_of_parseOr hA (by rw [hm]; exact hOR)
    rw [hp]
    rfl
  · intro p1 p2 p3 h1 h2 h3
    have hA := prim3_ascii h1 h2 h3
      (show AsciiL ((" OR ").toList) by unfold AsciiL; decide)
      (show AsciiL ((" OR ").toList) by unfold AsciiL; decide)
    have hin : printPrim p1 ++ (" OR ").toList ++ printPrim p2 ++ (" OR ").toList ++
        printPrim p3 = printPrim p1 ++ (' ' :: 'O' :: 'R' :: ' ' ::
        (printPrim p2 ++ (' ' :: 'O' :: 'R' :: ' ' :: printPrim p3))) := by
      rw [show ((" OR ").toList) = [' ', 'O', 'R', ' '] from rfl]
      simp [List.append_assoc]
    obtain ⟨m, hm⟩ : ∃ m, 5 * byteLen (printPrim p1 ++ (" OR ").toList ++ printPrim p2
        ++ (" OR ").toList ++ printPrim p3) + 10 = m + 1 + 1 + 1 + 1 + 1 :=
      ⟨5 * byteLen (printPrim p1 ++ (" OR ").toList ++ printPrim p2 ++
        (" OR ").toList ++ printPrim p3) + 5, by omega⟩
    have hOR := parseOr_scenario_or_or m h1 h2 h3 hin
    have hp := parse_of_parseOr hA (by rw [hm]; exact hOR)
    rw [hp]
    rfl
  · intro p1 p2 p3 h1 h2 h3
    have hA := prim3_ascii h1 h2 h3
      (show AsciiL ((" AND ").toList) by unfold AsciiL; decide)
      (show AsciiL ((" AND ").toList) by unfold AsciiL; decide)
    have hin : printPrim p1 ++ (" AND ").toList ++ printPrim p2 ++ (" AND ").toList ++
        printPrim p3 = printPrim p1 ++ (' ' :: 'A' :: 'N' :: 'D' :: ' ' ::
        (printPrim p2 ++ (' ' :: 'A' :: 'N' :: 'D' :: ' ' :: printPrim p3))) := by
      rw [show ((" AND ").toList) = [' ', 'A', 'N', 'D', ' '] from rfl]
      simp [List.append_assoc]
    obtain ⟨m, hm⟩ : ∃ m, 5 * byteLen (printPrim p1 ++ (" AND ").toList ++ printPrim p2
        ++ (" AND ").toList ++ printPrim p3) + 10 = m + 1 + 1 + 1 + 1 + 1 :=
      ⟨5 * byteLen (printPrim p1 ++ (" AND ").toList ++ printPrim p2 ++
        (" AND ").toList ++ printPrim p3) + 5, by omega⟩
    have hOR := parseOr_scenario_and_and m h1 h2 h3 hin
    have hp := parse_of_parseOr hA (by rw [hm]; exact hOR)
    rw [hp]
    rfl

/-- C5 witness: the three precedence/associativity statements applied to the
concrete primaries `status = 1`, `a > 2`, `b <= 3`. -/
theorem C5_witness :
    (parse (printPrim ⟨("status").toList, .Eq, 1⟩ ++ (" OR ").toList ++
        printPrim ⟨("a").toList, .Gt, 2⟩ ++ (" AND ").toList ++
        printPrim ⟨("b").toList, .Le, 3⟩)).okVal =
      some (.or (toExpr ⟨("status").toList, .Eq, 1⟩)
        (.and (toExpr ⟨("a").toList, .Gt, 2⟩) (toExpr ⟨("b").toList, .Le, 3⟩))) :=
  C5_precedence_and_associativity.1 ⟨("status").toList, .Eq, 1⟩
    ⟨("a").toList, .Gt, 2⟩ ⟨("b").toList, .Le, 3⟩
    (by unfold validField; decide) (by unfold validField; decide)
    (by unfold validField; decide)

end Ovq
